import Mathlib

/-!
AXPY alignment microbenchmark: `1_vectorizacion/p2/axpy_align.c`.

A shallow embedding of the kernels of the benchmark and of its compile-time
arithmetic.

* The element type `real` comes from `precision.h`; the kernels are written
  over any type `α` carrying a multiplication, an addition and a zero, and the
  closed forms are stated over `ℚ` (exact arithmetic).
* `AVX_LEN`, the number of elements of one vector register, also comes from
  `precision.h`; it is the parameter `W`.
* The three static buffers have `LEN + 1` slots.  They are lists, and every
  element access is checked: an access outside the list is the fault
  `outOfBounds`, and an aligned vector access at an index that is not a
  multiple of `W` is the fault `misaligned`.
* Every index of `x` or `y` that is read or written is appended to `log`, and
  every call of `dummy` appends its arguments to `calls`.
* `LEN` is an `int` constant of the C program; the counters of the inner loops
  stay below `LEN + AVX_LEN` and are natural numbers here.  The counter `nl`
  of the outer loop is compared with the 64-bit `NTIMES`, so its 32-bit
  wrap-around is modelled.
* The calls of `get_wall_time` and `results` only measure and print the
  elapsed time; they are left out.
-/

namespace AxpyAlign

/-! ## Compile-time constants -/

/-- Width of `unsigned long int`: every product of the macros is reduced
modulo `2 ^ 64`. -/
def U64 : Nat := 2 ^ 64

/-- Width of `unsigned int`, the type of the outer counter `nl`. -/
def U32 : Nat := 2 ^ 32

/-- The macro `#define FLOP_IT (unsigned long int) 2`. -/
def FLOP_IT : Nat := 2

/-- The macro `#define FLOP_COUNT (unsigned long int) 3*4*5*512*1024*1024`: the
cast binds to `3`, and the products are taken left to right in 64-bit unsigned
arithmetic. -/
def FLOP_COUNT : Nat :=
  (((((3 % U64 * 4) % U64 * 5) % U64 * 512) % U64 * 1024) % U64 * 1024) % U64

/-- The macro `#define NTIMES (unsigned long int) (FLOP_COUNT/(LEN*FLOP_IT))`
for a given `LEN` and a given value of `FLOP_IT`: a 64-bit product and a
truncating division. -/
def NTIMES_of (LEN flopIt : Nat) : Nat :=
  FLOP_COUNT / ((LEN % U64 * (flopIt % U64)) % U64)

/-- The macro `NTIMES` with the `FLOP_IT` of the file. -/
def NTIMES (LEN : Nat) : Nat := NTIMES_of LEN FLOP_IT

/-- The coefficient `static real alpha = 0.25;`. -/
def alpha : ℚ := 1 / 4

/-- The constant `2.0` that `init` stores in `x`. -/
def X0 : ℚ := 2

/-- The constant `0.5` that `init` stores in `y`. -/
def Y0 : ℚ := 1 / 2

/-! ## Machine state -/

/-- How a run can fail to give a result. -/
inductive Fault where
  | outOfBounds
  | misaligned
  | outOfFuel
  deriving DecidableEq

/-- The static buffers `x`, `y`, `z`, the log of the indices of `x` and `y`
that were read or written (oldest first), and the arguments `(x, y, z, alpha)`
of the calls of `dummy` (oldest first). -/
structure State (α : Type) where
  x : List α
  y : List α
  z : List α
  log : List Nat
  calls : List (List α × List α × List α × α)

/-- Reading `a[i]`. -/
def readAt {α : Type} (a : List α) (i : Nat) : Except Fault α :=
  match a[i]? with
  | some v => .ok v
  | none => .error .outOfBounds

/-! ## Loops -/

/-- The loop `for (i = i0; i < stop; i += step) body`, with `fuel` bounding the
number of iterations: running out of fuel before the test fails is the fault
`outOfFuel`.  The kernels run it from `i0 = 0` with `stop` units of fuel, which
is enough for every positive `step`. -/
def forLoop {σ : Type} (body : Nat → σ → Except Fault σ) (stop step : Nat) :
    Nat → Nat → σ → Except Fault σ
  | 0, i, s => if i < stop then .error .outOfFuel else .ok s
  | fuel + 1, i, s =>
    if i < stop then
      match body i s with
      | .ok s1 => forLoop body stop step fuel (i + step) s1
      | .error e => .error e
    else .ok s

/-- The outer loop `for (unsigned int nl = 0; nl < NTIMES; nl++) body`: `nl` is
a 32-bit counter, so the increment wraps modulo `2 ^ 32`, while `ntimes` is a
64-bit value. -/
def outerLoop {σ : Type} (body : σ → Except Fault σ) (ntimes : Nat) :
    Nat → Nat → σ → Except Fault σ
  | 0, nl, s => if nl < ntimes then .error .outOfFuel else .ok s
  | fuel + 1, nl, s =>
    if nl < ntimes then
      match body s with
      | .ok s1 => outerLoop body ntimes fuel ((nl + 1) % U32) s1
      | .error e => .error e
    else .ok s

/-- Exactly `n` executions of the body of the outer loop, one after the
other. -/
def iterN {σ : Type} (body : σ → Except Fault σ) : Nat → σ → Except Fault σ
  | 0, s => .ok s
  | n + 1, s =>
    match body s with
    | .ok s1 => iterN body n s1
    | .error e => .error e

/-! ## `init`, `check`, `dummy` -/

/-- The body `x[j] = 2.0; y[j] = 0.5;` of the loop of `init`, for the two
constants `c` and `d`. -/
def initAt {α : Type} (c d : α) (j : Nat) (s : State α) : Except Fault (State α) :=
  if j < s.x.length ∧ j < s.y.length then
    .ok { s with x := s.x.set j c, y := s.y.set j d, log := s.log ++ [j, j] }
  else .error .outOfBounds

/-- The function `init()`:
`for (int j = 0; j < LEN; j++) { x[j] = 2.0; y[j] = 0.5; }`. -/
def init {α : Type} (c d : α) (LEN : Nat) (s : State α) : Except Fault (State α) :=
  forLoop (initAt c d) LEN 1 LEN 0 s

/-- The body `sum += arr[i]` of the loop of `check`, on the buffer `y`. -/
def checkAt {α : Type} [Add α] (i : Nat) (p : State α × α) :
    Except Fault (State α × α) :=
  match readAt p.1.y i with
  | .ok v => .ok ({ p.1 with log := p.1.log ++ [i] }, p.2 + v)
  | .error e => .error e

/-- The function `check(y)`:
`sum = 0; for (unsigned int i = 0; i < LEN; i++) sum += arr[i];` and the sum is
printed; here it is returned. -/
def check {α : Type} [Add α] [Zero α] (LEN : Nat) (s : State α) :
    Except Fault (State α × α) :=
  forLoop checkAt LEN 1 LEN 0 (s, 0)

/-- Modelled from the spec: the body of `dummy` is not in this file (only its
declaration `int dummy(real x[], real y[], real z[], real alpha)` is).  It is an
opaque barrier; it is taken to leave the buffers unchanged, and each call is
recorded with its arguments. -/
def dummy {α : Type} (s : State α) (a : α) : State α :=
  { s with calls := s.calls ++ [(s.x, s.y, s.z, a)] }

/-! ## Scalar kernels -/

/-- The statement `y[i] = alpha*x[i] + y[i];`. -/
def axpyAt {α : Type} [Mul α] [Add α] (a : α) (i : Nat) (s : State α) :
    Except Fault (State α) :=
  match readAt s.x i with
  | .error e => .error e
  | .ok xv =>
    match readAt s.y i with
    | .error e => .error e
    | .ok yv => .ok { s with y := s.y.set i (a * xv + yv), log := s.log ++ [i, i, i] }

/-- One outer iteration of `axpy_align_v1`:
`for (unsigned int i = 0; i < LEN; i++) y[i] = alpha*x[i] + y[i];` and then
`dummy(x, y, z, alpha);`. -/
def v1_body {α : Type} [Mul α] [Add α] (LEN : Nat) (a : α) (s : State α) :
    Except Fault (State α) :=
  match forLoop (fun i => axpyAt a i) LEN 1 LEN 0 s with
  | .ok s1 => .ok (dummy s1 a)
  | .error e => .error e

/-- One outer iteration of `axpy_align_v2`:
`for (unsigned int i = 0; i < LEN; i++) y[i+1] = alpha*x[i+1] + y[i+1];` and
then `dummy(x, y, z, alpha);`. -/
def v2_body {α : Type} [Mul α] [Add α] (LEN : Nat) (a : α) (s : State α) :
    Except Fault (State α) :=
  match forLoop (fun i => axpyAt a (i + 1)) LEN 1 LEN 0 s with
  | .ok s1 => .ok (dummy s1 a)
  | .error e => .error e

/-! ## Vector intrinsics -/

/-- The intrinsic `_mm256_set1_pd(a)`: a register of `W` copies of `a`. -/
def set1 {α : Type} (W : Nat) (a : α) : List α := List.replicate W a

/-- The intrinsic `_mm256_loadu_pd(&a[i])`: the `W` consecutive elements
`a[i], ..., a[i+W-1]`. -/
def loadu {α : Type} (W : Nat) (a : List α) (i : Nat) : Except Fault (List α) :=
  if i + W ≤ a.length then .ok ((a.drop i).take W) else .error .outOfBounds

/-- The intrinsic `_mm256_load_pd(&a[i])`: as `loadu`, and the address must be a
multiple of the register size; the buffers are aligned on 64 bytes and a
register holds `W` elements, so `i` must be a multiple of `W`. -/
def load {α : Type} (W : Nat) (a : List α) (i : Nat) : Except Fault (List α) :=
  if i % W = 0 then loadu W a i else .error .misaligned

/-- The intrinsic `_mm256_mul_pd(u, v)`: element-wise product. -/
def mul_pd {α : Type} [Mul α] (u v : List α) : List α := List.zipWith (· * ·) u v

/-- The intrinsic `_mm256_add_pd(u, v)`: element-wise sum. -/
def add_pd {α : Type} [Add α] (u v : List α) : List α := List.zipWith (· + ·) u v

/-- The intrinsic `_mm256_storeu_pd(&a[i], v)`: the elements of `v` replace
`a[i], ..., a[i + |v| - 1]`. -/
def storeu {α : Type} (a : List α) (i : Nat) (v : List α) : Except Fault (List α) :=
  if i + v.length ≤ a.length then .ok (a.take i ++ v ++ a.drop (i + v.length))
  else .error .outOfBounds

/-- The intrinsic `_mm256_store_pd(&a[i], v)`: as `storeu`, for an aligned
address. -/
def store {α : Type} (W : Nat) (a : List α) (i : Nat) (v : List α) :
    Except Fault (List α) :=
  if i % W = 0 then storeu a i v else .error .misaligned

/-- The body of the inner loop of `axpy_align_v1_intr`, at counter `i`:
`vX = load(&x[i]); vY = load(&y[i]); vaX = mul(valpha, vX); vY = add(vaX, vY);
store(&y[i], vY);`. -/
def vecAt_v1 {α : Type} [Mul α] [Add α] (W : Nat) (valpha : List α) (i : Nat)
    (s : State α) : Except Fault (State α) :=
  match load W s.x i with
  | .error e => .error e
  | .ok vX =>
    match load W s.y i with
    | .error e => .error e
    | .ok vY =>
      let vaX := mul_pd valpha vX
      let vY1 := add_pd vaX vY
      match store W s.y i vY1 with
      | .error e => .error e
      | .ok y1 =>
        .ok { s with y := y1,
                     log := s.log ++ List.range' i W ++ List.range' i W ++ List.range' i W }

/-- The body of the inner loop of `axpy_align_v2_intr`, at counter `i`:
`vX = loadu(&x[i+1]); vY = loadu(&y[i+1]); vaX = mul(valpha, vX);
vY = add(vaX, vY); storeu(&y[i+1], vY);`. -/
def vecAt_v2 {α : Type} [Mul α] [Add α] (W : Nat) (valpha : List α) (i : Nat)
    (s : State α) : Except Fault (State α) :=
  match loadu W s.x (i + 1) with
  | .error e => .error e
  | .ok vX =>
    match loadu W s.y (i + 1) with
    | .error e => .error e
    | .ok vY =>
      let vaX := mul_pd valpha vX
      let vY1 := add_pd vaX vY
      match storeu s.y (i + 1) vY1 with
      | .error e => .error e
      | .ok y1 =>
        .ok { s with y := y1,
                     log := s.log ++ List.range' (i + 1) W ++ List.range' (i + 1) W
                              ++ List.range' (i + 1) W }

/-- One outer iteration of `axpy_align_v1_intr`: `valpha = set1(alpha);`
`for (int i = 0; i < LEN; i += AVX_LEN) ...` and then `dummy(x, y, z, alpha);`. -/
def v1_intr_body {α : Type} [Mul α] [Add α] (W LEN : Nat) (a : α) (s : State α) :
    Except Fault (State α) :=
  let valpha := set1 W a
  match forLoop (vecAt_v1 W valpha) LEN W LEN 0 s with
  | .ok s1 => .ok (dummy s1 a)
  | .error e => .error e

/-- One outer iteration of `axpy_align_v2_intr`. -/
def v2_intr_body {α : Type} [Mul α] [Add α] (W LEN : Nat) (a : α) (s : State α) :
    Except Fault (State α) :=
  let valpha := set1 W a
  match forLoop (vecAt_v2 W valpha) LEN W LEN 0 s with
  | .ok s1 => .ok (dummy s1 a)
  | .error e => .error e

/-! ## The four variants -/

/-- The shape shared by the four variants: `init();`, the outer loop
`for (unsigned int nl = 0; nl < NTIMES; nl++) body`, and `check(y);`.  The
result is the final state and the sum that `check` prints. -/
def variant {α : Type} [Add α] [Zero α] (body : State α → Except Fault (State α))
    (c d : α) (LEN ntimes fuel : Nat) (s : State α) : Except Fault (State α × α) :=
  match init c d LEN s with
  | .error e => .error e
  | .ok s0 =>
    match outerLoop body ntimes fuel 0 s0 with
    | .error e => .error e
    | .ok s1 => check LEN s1

/-- The variant after exactly `n` outer iterations: `init();`, `n` times the
body of the outer loop, and `check(y);`. -/
def variantN {α : Type} [Add α] [Zero α] (body : State α → Except Fault (State α))
    (c d : α) (LEN n : Nat) (s : State α) : Except Fault (State α × α) :=
  match init c d LEN s with
  | .error e => .error e
  | .ok s0 =>
    match iterN body n s0 with
    | .error e => .error e
    | .ok s1 => check LEN s1

/-- The variant `axpy_align_v1()`. -/
def axpy_align_v1 {α : Type} [Mul α] [Add α] [Zero α] (c d a : α)
    (LEN ntimes fuel : Nat) (s : State α) : Except Fault (State α × α) :=
  variant (v1_body LEN a) c d LEN ntimes fuel s

/-- The variant `axpy_align_v2()`. -/
def axpy_align_v2 {α : Type} [Mul α] [Add α] [Zero α] (c d a : α)
    (LEN ntimes fuel : Nat) (s : State α) : Except Fault (State α × α) :=
  variant (v2_body LEN a) c d LEN ntimes fuel s

/-- The variant `axpy_align_v1_intr()`. -/
def axpy_align_v1_intr {α : Type} [Mul α] [Add α] [Zero α] (W : Nat) (c d a : α)
    (LEN ntimes fuel : Nat) (s : State α) : Except Fault (State α × α) :=
  variant (v1_intr_body W LEN a) c d LEN ntimes fuel s

/-- The variant `axpy_align_v2_intr()`. -/
def axpy_align_v2_intr {α : Type} [Mul α] [Add α] [Zero α] (W : Nat) (c d a : α)
    (LEN ntimes fuel : Nat) (s : State α) : Except Fault (State α × α) :=
  variant (v2_intr_body W LEN a) c d LEN ntimes fuel s

/-- A state whose three buffers hold `LEN + 1` copies of `v`, with nothing
logged yet. -/
def freshState {α : Type} (LEN : Nat) (v : α) : State α :=
  { x := List.replicate (LEN + 1) v, y := List.replicate (LEN + 1) v,
    z := List.replicate (LEN + 1) v, log := [], calls := [] }

/-! ## The kernel as the specification words it -/

/-- Stated from the specification: one outer iteration performs the update
`accumulator[idx] = coefficient * operand[idx] + accumulator[idx]` for every
index `idx` of the active range `[lo, hi)`, and leaves every other slot as it
is. -/
def specKernel {α : Type} [Mul α] [Add α] (a : α) (lo hi : Nat) (x y : List α) :
    List α :=
  y.mapIdx fun j yv =>
    if lo ≤ j ∧ j < hi then
      match x[j]? with
      | some xv => a * xv + yv
      | none => yv
    else yv

/-- Stated from the specification: the initializer resets a buffer to one
constant `c` for exactly `LEN` elements. -/
def specFill {α : Type} (c : α) (lo hi : Nat) (l : List α) : List α :=
  l.mapIdx fun j v => if lo ≤ j ∧ j < hi then c else v

/-- The value of an accumulator slot that starts at `d` and receives `n` times
the update `v ↦ a * c + v`. -/
def accum {α : Type} [Mul α] [Add α] (a c d : α) (n : Nat) : α :=
  (fun v => a * c + v)^[n] d

/-- The sum that the loop of `check` builds from `acc` over the list `l`. -/
def sumFrom {α : Type} [Add α] (acc : α) (l : List α) : α :=
  l.foldl (· + ·) acc

/-! ## Relations between states -/

/-- What the inner loop of a kernel does to the state over the index range
`[lo, hi)`: `y` receives the update of the specification, the other buffers
and the record of calls are untouched, and exactly the indices of the range
are logged. -/
structure Upd {α : Type} [Mul α] [Add α] (a : α) (lo hi : Nat) (s s1 : State α) : Prop where
  x_eq : s1.x = s.x
  z_eq : s1.z = s.z
  calls_eq : s1.calls = s.calls
  y_eq : s1.y = specKernel a lo hi s.x s.y
  log_eq : ∃ lg, s1.log = s.log ++ lg ∧ ∀ j, j ∈ lg ↔ lo ≤ j ∧ j < hi

/-- The buffers `x` and `y` hold at least `hi` slots. -/
def Fits {α : Type} (hi : Nat) (s : State α) : Prop := hi ≤ s.x.length ∧ hi ≤ s.y.length

/-- What one outer iteration does: the update of the inner loop over `[lo, hi)`
and then one recorded call of `dummy` on the updated buffers. -/
structure Step {α : Type} [Mul α] [Add α] (a : α) (lo hi : Nat) (s s1 : State α) : Prop where
  x_eq : s1.x = s.x
  z_eq : s1.z = s.z
  y_eq : s1.y = specKernel a lo hi s.x s.y
  calls_eq : s1.calls = s.calls ++ [(s.x, specKernel a lo hi s.x s.y, s.z, a)]
  log_eq : ∃ lg, s1.log = s.log ++ lg ∧ ∀ j, j ∈ lg ↔ lo ≤ j ∧ j < hi

/-- A body of the outer loop that realises the kernel of the specification over
`[lo, hi)` on every state whose buffers hold `hi` slots. -/
def Realises {α : Type} [Mul α] [Add α] (a : α) (lo hi : Nat)
    (body : State α → Except Fault (State α)) : Prop :=
  ∀ s, Fits hi s → ∃ s1, body s = .ok s1 ∧ Step a lo hi s s1

/-- What `n` outer iterations do: `n` times the kernel of the specification on
`y`, one recorded call of `dummy` after each of them, and only indices of the
range in the log. -/
structure Iter {α : Type} [Mul α] [Add α] (a : α) (lo hi n : Nat) (s s1 : State α) : Prop where
  x_eq : s1.x = s.x
  z_eq : s1.z = s.z
  y_eq : s1.y = (specKernel a lo hi s.x)^[n] s.y
  calls_eq : s1.calls = s.calls ++
    (List.range n).map fun k => (s.x, (specKernel a lo hi s.x)^[k + 1] s.y, s.z, a)
  log_eq : ∃ lg, s1.log = s.log ++ lg ∧ (∀ j ∈ lg, lo ≤ j ∧ j < hi) ∧
    (0 < n → ∀ j, lo ≤ j → j < hi → j ∈ lg)

/-- What the loop of `init` does over the index range `[lo, hi)`. -/
structure Ini {α : Type} (c d : α) (lo hi : Nat) (s s1 : State α) : Prop where
  x_eq : s1.x = specFill c lo hi s.x
  y_eq : s1.y = specFill d lo hi s.y
  z_eq : s1.z = s.z
  calls_eq : s1.calls = s.calls
  log_eq : ∃ lg, s1.log = s.log ++ lg ∧ ∀ j, j ∈ lg ↔ lo ≤ j ∧ j < hi

/-- The buffers of a state have the `LEN + 1` slots of the declarations
`static real x[LEN+1]`, `y[LEN+1]`, `z[LEN+1]`. -/
def WellSized {α : Type} (LEN : Nat) (s : State α) : Prop :=
  s.x.length = LEN + 1 ∧ s.y.length = LEN + 1 ∧ s.z.length = LEN + 1

/-! ## Lemmas on the loops -/

section Lemmas

variable {α : Type}

theorem forLoop_range {σ : Type} (body : Nat → σ → Except Fault σ) (stop step : Nat)
    (hstep : 0 < step) (Q : Nat → Prop) (P : σ → Prop) (R : Nat → Nat → σ → σ → Prop)
    (hQ : ∀ i, Q i → Q (i + step))
    (hrefl : ∀ i s, R i i s s)
    (htrans : ∀ i j k s1 s2 s3, i ≤ j → j ≤ k → R i j s1 s2 → R j k s2 s3 → R i k s1 s3)
    (hbody : ∀ i s, Q i → P s → i + step ≤ stop →
      ∃ s1, body i s = .ok s1 ∧ R i (i + step) s s1 ∧ P s1) :
    ∀ (k fuel i : Nat) (s : σ), i + k * step = stop → k ≤ fuel → Q i → P s →
      ∃ s1, forLoop body stop step fuel i s = .ok s1 ∧ R i stop s s1 ∧ P s1 := by
  intro k
  induction k with
  | zero =>
    intro fuel i s hk _ _ hP
    have hi : ¬ i < stop := by omega
    have his : i = stop := by omega
    refine ⟨s, ?_, ?_, hP⟩
    · cases fuel <;> simp [forLoop, hi]
    · rw [← his]; exact hrefl i s
  | succ k ih =>
    intro fuel i s hk hfuel hQi hP
    have hmul : (k + 1) * step = k * step + step := Nat.succ_mul k step
    have hi : i < stop := by omega
    have hle : i + step ≤ stop := by
      have := Nat.zero_le (k * step)
      omega
    obtain ⟨s1, hb, hR, hP1⟩ := hbody i s hQi hP hle
    obtain ⟨fuel1, rfl⟩ : ∃ f, fuel = f + 1 := ⟨fuel - 1, by omega⟩
    obtain ⟨s2, hl, hR2, hP2⟩ :=
      ih fuel1 (i + step) s1 (by omega) (by omega) (hQ i hQi) hP1
    refine ⟨s2, ?_, ?_, hP2⟩
    · simp [forLoop, hi, hb, hl]
    · exact htrans i (i + step) stop s s1 s2 (by omega) hle hR hR2

theorem specKernel_length [Mul α] [Add α] (a : α) (lo hi : Nat) (x y : List α) :
    (specKernel a lo hi x y).length = y.length := by
  simp [specKernel]

theorem specKernel_get [Mul α] [Add α] (a : α) (lo hi : Nat) (x y : List α) (j : Nat) :
    (specKernel a lo hi x y)[j]? =
      (y[j]?).map fun yv =>
        if lo ≤ j ∧ j < hi then
          match x[j]? with
          | some xv => a * xv + yv
          | none => yv
        else yv := by
  simp [specKernel]

theorem specKernel_empty [Mul α] [Add α] (a : α) (i : Nat) (x y : List α) :
    specKernel a i i x y = y := by
  apply List.ext_getElem?
  intro j
  rw [specKernel_get]
  have : ¬ (i ≤ j ∧ j < i) := by omega
  simp [this]

theorem specKernel_trans [Mul α] [Add α] (a : α) (i j k : Nat) (hij : i ≤ j) (hjk : j ≤ k)
    (x y : List α) :
    specKernel a j k x (specKernel a i j x y) = specKernel a i k x y := by
  apply List.ext_getElem?
  intro n
  rw [specKernel_get, specKernel_get, specKernel_get]
  cases hy : y[n]? with
  | none => simp
  | some yv =>
    by_cases h1 : i ≤ n ∧ n < j
    · have h2 : ¬ (j ≤ n ∧ n < k) := by omega
      have h3 : i ≤ n ∧ n < k := by omega
      simp [h1, h2, h3]
    · by_cases h2 : j ≤ n ∧ n < k
      · have h3 : i ≤ n ∧ n < k := by omega
        have h4 : ¬ n < j := by omega
        simp [h2, h3, h4]
      · have h3 : ¬ (i ≤ n ∧ n < k) := by omega
        simp [h1, h2, h3]

theorem specKernel_set [Mul α] [Add α] (a : α) (i : Nat) (x y : List α) (xv yv : α)
    (hx : x[i]? = some xv) (hy : y[i]? = some yv) :
    y.set i (a * xv + yv) = specKernel a i (i + 1) x y := by
  apply List.ext_getElem?
  intro n
  rw [specKernel_get, List.getElem?_set]
  by_cases h : i = n
  · subst h
    have hlt : i < y.length := by
      rcases List.getElem?_eq_some.mp hy with ⟨h, _⟩
      exact h
    simp [hlt, hx, hy]
  · have h2 : ¬ (i ≤ n ∧ n < i + 1) := by omega
    simp [h, h2]

theorem vec_length [Mul α] [Add α] (W : Nat) (a : α) (i : Nat) (x y : List α)
    (hx : i + W ≤ x.length) (hy : i + W ≤ y.length) :
    (add_pd (mul_pd (set1 W a) ((x.drop i).take W)) ((y.drop i).take W)).length = W := by
  simp [add_pd, mul_pd, set1]
  omega

theorem vec_get [Mul α] [Add α] (W : Nat) (a : α) (i : Nat) (x y : List α) (m : Nat)
    (hm : m < W) (xv yv : α) (hx : x[i + m]? = some xv) (hy : y[i + m]? = some yv) :
    (add_pd (mul_pd (set1 W a) ((x.drop i).take W)) ((y.drop i).take W))[m]?
      = some (a * xv + yv) := by
  simp [add_pd, mul_pd, set1, List.getElem?_zipWith, List.getElem?_take, List.getElem?_drop,
    List.getElem?_replicate, hm, hx, hy]

theorem specKernel_store [Mul α] [Add α] (W : Nat) (a : α) (i : Nat) (x y v : List α)
    (hx : i + W ≤ x.length) (hy : i + W ≤ y.length)
    (hv : v = add_pd (mul_pd (set1 W a) ((x.drop i).take W)) ((y.drop i).take W)) :
    y.take i ++ v ++ y.drop (i + v.length) = specKernel a i (i + W) x y := by
  have hlen : v.length = W := by rw [hv]; exact vec_length W a i x y hx hy
  apply List.ext_getElem?
  intro n
  rw [specKernel_get, hlen]
  by_cases h1 : n < i
  · have h2 : ¬ (i ≤ n ∧ n < i + W) := by omega
    have hn : n < y.length := by omega
    rw [List.append_assoc, List.getElem?_append_left (by simp; omega)]
    simp [h2, List.getElem?_take, h1]
  · by_cases h2 : n < i + W
    · have h3 : i ≤ n ∧ n < i + W := by omega
      have hnx : n < x.length := by omega
      have hny : n < y.length := by omega
      have hxv : x[i + (n - i)]? = some (x[n]) := by
        have : i + (n - i) = n := by omega
        rw [this]; exact List.getElem?_eq_getElem hnx
      have hyv : y[i + (n - i)]? = some (y[n]) := by
        have : i + (n - i) = n := by omega
        rw [this]; exact List.getElem?_eq_getElem hny
      have hg := vec_get W a i x y (n - i) (by omega) _ _ hxv hyv
      rw [← hv] at hg
      have ht : (y.take i).length = i := by simp; omega
      rw [List.getElem?_append_left (by simp [hlen]; omega),
        List.getElem?_append_right (by omega), ht, hg]
      simp [h3, List.getElem?_eq_getElem hnx, List.getElem?_eq_getElem hny]
    · have h3 : ¬ (i ≤ n ∧ n < i + W) := by omega
      have ht : (y.take i ++ v).length = i + W := by simp [hlen]; omega
      rw [List.getElem?_append_right (by omega), ht, List.getElem?_drop]
      have : i + W + (n - (i + W)) = n := by omega
      rw [this]
      simp [h3]

theorem Upd.refl [Mul α] [Add α] (a : α) (i : Nat) (s : State α) : Upd a i i s s where
  x_eq := rfl
  z_eq := rfl
  calls_eq := rfl
  y_eq := (specKernel_empty a i s.x s.y).symm
  log_eq := ⟨[], by simp, by intro j; simp⟩

theorem Upd.trans [Mul α] [Add α] (a : α) (i j k : Nat) (s1 s2 s3 : State α)
    (hij : i ≤ j) (hjk : j ≤ k) (h1 : Upd a i j s1 s2) (h2 : Upd a j k s2 s3) :
    Upd a i k s1 s3 where
  x_eq := h2.x_eq.trans h1.x_eq
  z_eq := h2.z_eq.trans h1.z_eq
  calls_eq := h2.calls_eq.trans h1.calls_eq
  y_eq := by
    rw [h2.y_eq, h1.y_eq, h1.x_eq]
    exact specKernel_trans a i j k hij hjk s1.x s1.y
  log_eq := by
    obtain ⟨l1, e1, m1⟩ := h1.log_eq
    obtain ⟨l2, e2, m2⟩ := h2.log_eq
    refine ⟨l1 ++ l2, by rw [e2, e1, List.append_assoc], ?_⟩
    intro n
    rw [List.mem_append, m1, m2]
    omega

theorem Upd.fits_upd [Mul α] [Add α] {a : α} {lo hi m : Nat} {s s1 : State α}
    (h : Upd a lo hi s s1) (hf : Fits m s) : Fits m s1 := by
  unfold Fits at *
  rw [h.x_eq, h.y_eq, specKernel_length]
  exact hf

theorem axpyAt_upd [Mul α] [Add α] (a : α) (i : Nat) (s : State α) (hf : Fits (i + 1) s) :
    ∃ s1, axpyAt a i s = .ok s1 ∧ Upd a i (i + 1) s s1 := by
  obtain ⟨hx, hy⟩ := hf
  have hxv : s.x[i]? = some (s.x[i]) := List.getElem?_eq_getElem (by omega)
  have hyv : s.y[i]? = some (s.y[i]) := List.getElem?_eq_getElem (by omega)
  have hrun : axpyAt a i s
      = .ok { s with y := s.y.set i (a * s.x[i] + s.y[i]), log := s.log ++ [i, i, i] } := by
    simp [axpyAt, readAt, hxv, hyv]
  refine ⟨_, hrun, ?_⟩
  exact
    { x_eq := rfl
      z_eq := rfl
      calls_eq := rfl
      y_eq := specKernel_set a i s.x s.y _ _ hxv hyv
      log_eq := ⟨[i, i, i], rfl, by intro j; simp; omega⟩ }

theorem vecAt_v2_upd [Mul α] [Add α] (W : Nat) (a : α) (i : Nat) (s : State α)
    (hf : Fits (i + 1 + W) s) :
    ∃ s1, vecAt_v2 W (set1 W a) i s = .ok s1 ∧ Upd a (i + 1) (i + 1 + W) s s1 := by
  obtain ⟨hx, hy⟩ := hf
  have hl := vec_length W a (i + 1) s.x s.y hx hy
  have hrun : vecAt_v2 W (set1 W a) i s
      = .ok { s with
          y := s.y.take (i + 1)
                ++ add_pd (mul_pd (set1 W a) ((s.x.drop (i + 1)).take W))
                    ((s.y.drop (i + 1)).take W)
                ++ s.y.drop (i + 1 + (add_pd (mul_pd (set1 W a) ((s.x.drop (i + 1)).take W))
                    ((s.y.drop (i + 1)).take W)).length),
          log := s.log ++ List.range' (i + 1) W ++ List.range' (i + 1) W
                  ++ List.range' (i + 1) W } := by
    simp only [vecAt_v2, loadu, storeu, if_pos hx, if_pos hy, hl]
  refine ⟨_, hrun, ?_⟩
  exact
    { x_eq := rfl
      z_eq := rfl
      calls_eq := rfl
      y_eq := specKernel_store W a (i + 1) s.x s.y _ hx hy rfl
      log_eq := ⟨List.range' (i + 1) W ++ List.range' (i + 1) W ++ List.range' (i + 1) W,
        by simp [List.append_assoc], by intro j; simp⟩ }

theorem vecAt_v1_upd [Mul α] [Add α] (W : Nat) (a : α) (i : Nat) (s : State α)
    (hf : Fits (i + W) s) (hi : i % W = 0) :
    ∃ s1, vecAt_v1 W (set1 W a) i s = .ok s1 ∧ Upd a i (i + W) s s1 := by
  obtain ⟨hx, hy⟩ := hf
  have hl := vec_length W a i s.x s.y hx hy
  have hrun : vecAt_v1 W (set1 W a) i s
      = .ok { s with
          y := s.y.take i
                ++ add_pd (mul_pd (set1 W a) ((s.x.drop i).take W)) ((s.y.drop i).take W)
                ++ s.y.drop (i + (add_pd (mul_pd (set1 W a) ((s.x.drop i).take W))
                    ((s.y.drop i).take W)).length),
          log := s.log ++ List.range' i W ++ List.range' i W ++ List.range' i W } := by
    simp only [vecAt_v1, load, store, loadu, storeu, if_pos hx, if_pos hy, if_pos hi, hl]
  refine ⟨_, hrun, ?_⟩
  exact
    { x_eq := rfl
      z_eq := rfl
      calls_eq := rfl
      y_eq := specKernel_store W a i s.x s.y _ hx hy rfl
      log_eq := ⟨List.range' i W ++ List.range' i W ++ List.range' i W,
        by simp [List.append_assoc], by intro j; simp⟩ }

theorem scalar_loop [Mul α] [Add α] (a : α) (LEN off : Nat) (s : State α)
    (hf : Fits (LEN + off) s) :
    ∃ s1, forLoop (fun i => axpyAt a (i + off)) LEN 1 LEN 0 s = .ok s1
      ∧ Upd a off (LEN + off) s s1 := by
  obtain ⟨s1, h1, h2, _⟩ :=
    forLoop_range (fun i => axpyAt a (i + off)) LEN 1 Nat.one_pos (fun _ => True)
      (Fits (LEN + off)) (fun i j t t1 => Upd a (i + off) (j + off) t t1)
      (fun _ _ => trivial)
      (fun i t => Upd.refl a (i + off) t)
      (fun i j k t1 t2 t3 hij hjk h1 h2 =>
        Upd.trans a (i + off) (j + off) (k + off) t1 t2 t3 (by omega) (by omega) h1 h2)
      (by
        intro i t _ hP hle
        have hfit : Fits (i + off + 1) t := ⟨by have := hP.1; omega, by have := hP.2; omega⟩
        obtain ⟨t1, hr, hu⟩ := axpyAt_upd a (i + off) t hfit
        refine ⟨t1, hr, ?_, hu.fits_upd hP⟩
        have : i + 1 + off = i + off + 1 := by omega
        show Upd a (i + off) (i + 1 + off) t t1
        rw [this]; exact hu)
      LEN LEN 0 s (by omega) (Nat.le_refl _) trivial hf
  refine ⟨s1, h1, ?_⟩
  simpa using h2

theorem vec_loop_v1 [Mul α] [Add α] (W : Nat) (a : α) (LEN : Nat) (s : State α)
    (hW : 0 < W) (hdvd : W ∣ LEN) (hf : Fits LEN s) :
    ∃ s1, forLoop (vecAt_v1 W (set1 W a)) LEN W LEN 0 s = .ok s1 ∧ Upd a 0 LEN s s1 := by
  obtain ⟨k, hk⟩ := hdvd
  have hkle : k ≤ LEN := by
    rw [hk]; exact Nat.le_mul_of_pos_left k hW
  obtain ⟨s1, h1, h2, _⟩ :=
    forLoop_range (vecAt_v1 W (set1 W a)) LEN W hW (fun i => i % W = 0)
      (Fits LEN) (fun i j t t1 => Upd a i j t t1)
      (by intro i hi; simp [Nat.add_mod, hi])
      (fun i t => Upd.refl a i t)
      (fun i j k t1 t2 t3 hij hjk h1 h2 => Upd.trans a i j k t1 t2 t3 hij hjk h1 h2)
      (by
        intro i t hi hP hle
        have hfit : Fits (i + W) t := ⟨by have := hP.1; omega, by have := hP.2; omega⟩
        obtain ⟨t1, hr, hu⟩ := vecAt_v1_upd W a i t hfit hi
        exact ⟨t1, hr, hu, hu.fits_upd hP⟩)
      k LEN 0 s (by rw [hk, Nat.mul_comm]; omega) hkle (by simp) hf
  exact ⟨s1, h1, h2⟩

theorem vec_loop_v2 [Mul α] [Add α] (W : Nat) (a : α) (LEN : Nat) (s : State α)
    (hW : 0 < W) (hdvd : W ∣ LEN) (hf : Fits (LEN + 1) s) :
    ∃ s1, forLoop (vecAt_v2 W (set1 W a)) LEN W LEN 0 s = .ok s1
      ∧ Upd a 1 (LEN + 1) s s1 := by
  obtain ⟨k, hk⟩ := hdvd
  have hkle : k ≤ LEN := by
    rw [hk]; exact Nat.le_mul_of_pos_left k hW
  obtain ⟨s1, h1, h2, _⟩ :=
    forLoop_range (vecAt_v2 W (set1 W a)) LEN W hW (fun _ => True)
      (Fits (LEN + 1)) (fun i j t t1 => Upd a (i + 1) (j + 1) t t1)
      (fun _ _ => trivial)
      (fun i t => Upd.refl a (i + 1) t)
      (fun i j k t1 t2 t3 hij hjk h1 h2 =>
        Upd.trans a (i + 1) (j + 1) (k + 1) t1 t2 t3 (by omega) (by omega) h1 h2)
      (by
        intro i t _ hP hle
        have hfit : Fits (i + 1 + W) t := ⟨by have := hP.1; omega, by have := hP.2; omega⟩
        obtain ⟨t1, hr, hu⟩ := vecAt_v2_upd W a i t hfit
        refine ⟨t1, hr, ?_, hu.fits_upd hP⟩
        have : i + W + 1 = i + 1 + W := by omega
        show Upd a (i + 1) (i + W + 1) t t1
        rw [this]; exact hu)
      k LEN 0 s (by rw [hk, Nat.mul_comm]; omega) hkle trivial hf
  refine ⟨s1, h1, ?_⟩
  simpa using h2

theorem Upd.step [Mul α] [Add α] {a : α} {lo hi : Nat} {s s1 : State α}
    (h : Upd a lo hi s s1) : Step a lo hi s (dummy s1 a) where
  x_eq := h.x_eq
  z_eq := h.z_eq
  y_eq := h.y_eq
  calls_eq := by
    show s1.calls ++ [(s1.x, s1.y, s1.z, a)] = _
    rw [h.calls_eq, h.x_eq, h.y_eq, h.z_eq]
  log_eq := h.log_eq

theorem Step.fits_step [Mul α] [Add α] {a : α} {lo hi m : Nat} {s s1 : State α}
    (h : Step a lo hi s s1) (hf : Fits m s) : Fits m s1 := by
  unfold Fits at *
  rw [h.x_eq, h.y_eq, specKernel_length]
  exact hf

theorem v1_body_realises [Mul α] [Add α] (a : α) (LEN : Nat) :
    Realises a 0 LEN (v1_body LEN a) := by
  intro s hf
  obtain ⟨s1, h1, h2⟩ := scalar_loop a LEN 0 s hf
  have h1b : forLoop (fun i => axpyAt a i) LEN 1 LEN 0 s = .ok s1 := h1
  exact ⟨dummy s1 a, by simp [v1_body, h1b], h2.step⟩

theorem v2_body_realises [Mul α] [Add α] (a : α) (LEN : Nat) :
    Realises a 1 (LEN + 1) (v2_body LEN a) := by
  intro s hf
  obtain ⟨s1, h1, h2⟩ := scalar_loop a LEN 1 s hf
  exact ⟨dummy s1 a, by simp [v2_body, h1], h2.step⟩

theorem v1_intr_body_realises [Mul α] [Add α] (W : Nat) (a : α) (LEN : Nat)
    (hW : 0 < W) (hdvd : W ∣ LEN) :
    Realises a 0 LEN (v1_intr_body W LEN a) := by
  intro s hf
  obtain ⟨s1, h1, h2⟩ := vec_loop_v1 W a LEN s hW hdvd hf
  exact ⟨dummy s1 a, by simp [v1_intr_body, h1], h2.step⟩

theorem v2_intr_body_realises [Mul α] [Add α] (W : Nat) (a : α) (LEN : Nat)
    (hW : 0 < W) (hdvd : W ∣ LEN) :
    Realises a 1 (LEN + 1) (v2_intr_body W LEN a) := by
  intro s hf
  obtain ⟨s1, h1, h2⟩ := vec_loop_v2 W a LEN s hW hdvd hf
  exact ⟨dummy s1 a, by simp [v2_intr_body, h1], h2.step⟩

theorem iterN_realises [Mul α] [Add α] (a : α) (lo hi : Nat)
    (body : State α → Except Fault (State α)) (hb : Realises a lo hi body) :
    ∀ (n : Nat) (s : State α), Fits hi s →
      ∃ s1, iterN body n s = .ok s1 ∧ Iter a lo hi n s s1 := by
  intro n
  induction n with
  | zero =>
    intro s _
    exact ⟨s, rfl,
      { x_eq := rfl, z_eq := rfl, y_eq := rfl, calls_eq := by simp,
        log_eq := ⟨[], by simp, by simp, by intro h; omega⟩ }⟩
  | succ n ih =>
    intro s hf
    obtain ⟨s1, h1, st⟩ := hb s hf
    obtain ⟨s2, h2, it⟩ := ih s1 (st.fits_step hf)
    refine ⟨s2, by simp [iterN, h1, h2], ?_⟩
    obtain ⟨l1, e1, m1⟩ := st.log_eq
    obtain ⟨l2, e2, m2, _⟩ := it.log_eq
    exact
      { x_eq := it.x_eq.trans st.x_eq
        z_eq := it.z_eq.trans st.z_eq
        y_eq := by
          rw [it.y_eq, st.x_eq, st.y_eq, Function.iterate_succ_apply]
        calls_eq := by
          rw [it.calls_eq, st.calls_eq, st.x_eq, st.y_eq, st.z_eq, List.range_succ_eq_map,
            List.append_assoc]
          simp [Function.iterate_succ_apply, Function.comp_def]
        log_eq := by
          refine ⟨l1 ++ l2, by rw [e2, e1, List.append_assoc], ?_, ?_⟩
          · intro j hj
            rcases List.mem_append.mp hj with h | h
            · exact (m1 j).mp h
            · exact m2 j h
          · intro _ j hlo hhi
            exact List.mem_append.mpr (Or.inl ((m1 j).mpr ⟨hlo, hhi⟩)) }

theorem specFill_length (c : α) (lo hi : Nat) (l : List α) :
    (specFill c lo hi l).length = l.length := by
  simp [specFill]

theorem specFill_get (c : α) (lo hi : Nat) (l : List α) (j : Nat) :
    (specFill c lo hi l)[j]? = (l[j]?).map fun v => if lo ≤ j ∧ j < hi then c else v := by
  simp [specFill]

theorem specFill_empty (c : α) (i : Nat) (l : List α) : specFill c i i l = l := by
  apply List.ext_getElem?
  intro j
  rw [specFill_get]
  have : ¬ (i ≤ j ∧ j < i) := by omega
  simp [this]

theorem specFill_trans (c : α) (i j k : Nat) (hij : i ≤ j) (hjk : j ≤ k) (l : List α) :
    specFill c j k (specFill c i j l) = specFill c i k l := by
  apply List.ext_getElem?
  intro n
  rw [specFill_get, specFill_get, specFill_get]
  cases hl : l[n]? with
  | none => simp
  | some v =>
    by_cases h1 : i ≤ n ∧ n < j
    · have h2 : ¬ (j ≤ n ∧ n < k) := by omega
      have h3 : i ≤ n ∧ n < k := by omega
      simp [h1, h2, h3]
    · by_cases h2 : j ≤ n ∧ n < k
      · have h3 : i ≤ n ∧ n < k := by omega
        simp [h2, h3]
      · have h3 : ¬ (i ≤ n ∧ n < k) := by omega
        simp [h1, h2, h3]

theorem specFill_set (c : α) (i : Nat) (l : List α) (hi : i < l.length) :
    l.set i c = specFill c i (i + 1) l := by
  apply List.ext_getElem?
  intro n
  rw [specFill_get, List.getElem?_set]
  by_cases h : i = n
  · subst h
    simp [hi, List.getElem?_eq_getElem hi]
  · have h2 : ¬ (i ≤ n ∧ n < i + 1) := by omega
    simp [h, h2]

theorem Ini.fits_ini {c d : α} {lo hi m : Nat} {s s1 : State α}
    (h : Ini c d lo hi s s1) (hf : Fits m s) : Fits m s1 := by
  unfold Fits at *
  rw [h.x_eq, h.y_eq, specFill_length, specFill_length]
  exact hf

theorem init_spec (c d : α) (LEN : Nat) (s : State α) (hf : Fits LEN s) :
    ∃ s1, init c d LEN s = .ok s1 ∧ Ini c d 0 LEN s s1 := by
  obtain ⟨s1, h1, h2, _⟩ :=
    forLoop_range (initAt c d) LEN 1 Nat.one_pos (fun _ => True)
      (Fits LEN) (fun i j t t1 => Ini c d i j t t1)
      (fun _ _ => trivial)
      (fun i t =>
        { x_eq := (specFill_empty c i t.x).symm
          y_eq := (specFill_empty d i t.y).symm
          z_eq := rfl
          calls_eq := rfl
          log_eq := ⟨[], by simp, by intro j; simp⟩ })
      (fun i j k t1 t2 t3 hij hjk h1 h2 =>
        { x_eq := by rw [h2.x_eq, h1.x_eq]; exact specFill_trans c i j k hij hjk t1.x
          y_eq := by rw [h2.y_eq, h1.y_eq]; exact specFill_trans d i j k hij hjk t1.y
          z_eq := h2.z_eq.trans h1.z_eq
          calls_eq := h2.calls_eq.trans h1.calls_eq
          log_eq := by
            obtain ⟨l1, e1, m1⟩ := h1.log_eq
            obtain ⟨l2, e2, m2⟩ := h2.log_eq
            refine ⟨l1 ++ l2, by rw [e2, e1, List.append_assoc], ?_⟩
            intro n
            rw [List.mem_append, m1, m2]
            omega })
      (by
        intro i t _ hP hle
        have hx : i < t.x.length := by have := hP.1; omega
        have hy : i < t.y.length := by have := hP.2; omega
        have hrun : initAt c d i t
            = .ok { t with x := t.x.set i c, y := t.y.set i d, log := t.log ++ [i, i] } := by
          simp [initAt, hx, hy]
        have hini : Ini c d i (i + 1) t
            { t with x := t.x.set i c, y := t.y.set i d, log := t.log ++ [i, i] } :=
          { x_eq := specFill_set c i t.x hx
            y_eq := specFill_set d i t.y hy
            z_eq := rfl
            calls_eq := rfl
            log_eq := ⟨[i, i], rfl, by intro j; simp; omega⟩ }
        exact ⟨_, hrun, hini, hini.fits_ini hP⟩)
      LEN LEN 0 s (by omega) (Nat.le_refl _) trivial hf
  exact ⟨s1, h1, h2⟩

theorem sumFrom_snoc [Add α] (acc : α) (l : List α) (v : α) :
    sumFrom acc (l ++ [v]) = sumFrom acc l + v := by
  simp [sumFrom]

theorem check_spec [Add α] [Zero α] (LEN : Nat) (s : State α) (hf : LEN ≤ s.y.length) :
    ∃ lg, check LEN s = .ok ({ s with log := s.log ++ lg }, sumFrom 0 (s.y.take LEN))
      ∧ ∀ j, j ∈ lg ↔ j < LEN := by
  obtain ⟨p, h1, h2, _⟩ :=
    forLoop_range (@checkAt α _) LEN 1 Nat.one_pos (fun _ => True)
      (fun p => p.1.y = s.y)
      (fun i j p p1 => p1.1.x = p.1.x ∧ p1.1.y = p.1.y ∧ p1.1.z = p.1.z
        ∧ p1.1.calls = p.1.calls
        ∧ (∃ lg, p1.1.log = p.1.log ++ lg ∧ ∀ n, n ∈ lg ↔ i ≤ n ∧ n < j)
        ∧ ∀ acc, p.2 = sumFrom acc (p.1.y.take i) → p1.2 = sumFrom acc (p.1.y.take j))
      (fun _ _ => trivial)
      (fun i p => ⟨rfl, rfl, rfl, rfl, ⟨[], by simp, by intro n; simp⟩, fun _ h => h⟩)
      (by
        rintro i j k p1 p2 p3 hij hjk ⟨a1, a2, a3, a4, ⟨l1, e1, m1⟩, a6⟩
          ⟨b1, b2, b3, b4, ⟨l2, e2, m2⟩, b6⟩
        refine ⟨b1.trans a1, b2.trans a2, b3.trans a3, b4.trans a4,
          ⟨l1 ++ l2, by rw [e2, e1, List.append_assoc], ?_⟩, ?_⟩
        · intro n
          rw [List.mem_append, m1, m2]
          omega
        · intro acc h
          have := b6 acc (by rw [a2]; exact a6 acc h)
          rw [a2] at this
          exact this)
      (by
        intro i p _ hP hle
        have hy : i < p.1.y.length := by rw [hP]; omega
        have hyv : p.1.y[i]? = some (p.1.y[i]) := List.getElem?_eq_getElem hy
        have hrun : checkAt i p
            = .ok ({ p.1 with log := p.1.log ++ [i] }, p.2 + p.1.y[i]) := by
          simp [checkAt, readAt, hyv]
        refine ⟨_, hrun, ⟨rfl, rfl, rfl, rfl, ⟨[i], rfl, by intro n; simp; omega⟩, ?_⟩, hP⟩
        intro acc h
        show p.2 + p.1.y[i] = _
        rw [List.take_succ, hyv, h]
        exact (sumFrom_snoc acc _ _).symm)
      LEN LEN 0 (s, 0) (by omega) (Nat.le_refl _) trivial rfl
  obtain ⟨a1, a2, a3, a4, ⟨lg, e, m⟩, a6⟩ := h2
  refine ⟨lg, ?_, ?_⟩
  · have hsum : p.2 = sumFrom 0 (s.y.take LEN) := a6 0 (by simp [sumFrom])
    have hst : p.1 = { s with log := s.log ++ lg } := by
      cases hp : p.1
      rw [hp] at a1 a2 a3 a4 e
      simp at a1 a2 a3 a4 e
      simp [a1, a2, a3, a4, e]
    show forLoop checkAt LEN 1 LEN 0 (s, 0) = _
    rw [h1, ← hst, ← hsum]
  · intro j
    rw [m]
    omega

theorem iter_specKernel_length [Mul α] [Add α] (a : α) (lo hi : Nat) (x y : List α) (n : Nat) :
    ((specKernel a lo hi x)^[n] y).length = y.length := by
  induction n with
  | zero => rfl
  | succ n ih => rw [Function.iterate_succ_apply', specKernel_length, ih]

theorem iter_specKernel_get [Mul α] [Add α] (a : α) (lo hi : Nat) (x y : List α)
    (n j : Nat) :
    ((specKernel a lo hi x)^[n] y)[j]? =
      (y[j]?).map fun yv =>
        if lo ≤ j ∧ j < hi then
          match x[j]? with
          | some xv => accum a xv yv n
          | none => yv
        else yv := by
  induction n with
  | zero =>
    cases hy : y[j]? with
    | none => simp [hy]
    | some yv =>
      cases hx : x[j]? <;> simp [hy, accum]
  | succ n ih =>
    rw [Function.iterate_succ_apply', specKernel_get, ih]
    cases hy : y[j]? with
    | none => simp
    | some yv =>
      by_cases h : lo ≤ j ∧ j < hi
      · cases hx : x[j]? with
        | none => simp [h]
        | some xv => simp [h, accum, Function.iterate_succ_apply']
      · simp [h]

theorem final_get [Mul α] [Add α] (a c d : α) (lo hi LEN n j : Nat) (x y : List α)
    (hj : j < LEN) (hx : j < x.length) (hy : j < y.length) :
    ((specKernel a lo hi (specFill c 0 LEN x))^[n] (specFill d 0 LEN y))[j]?
      = some (if lo ≤ j ∧ j < hi then accum a c d n else d) := by
  rw [iter_specKernel_get, specFill_get, specFill_get, List.getElem?_eq_getElem hx,
    List.getElem?_eq_getElem hy]
  by_cases h : lo ≤ j ∧ j < hi
  · simp [h, hj]
  · simp [h, hj]

theorem take_aligned [Mul α] [Add α] (a c d : α) (LEN n : Nat) (x y : List α)
    (hx : LEN ≤ x.length) (hy : LEN ≤ y.length) :
    ((specKernel a 0 LEN (specFill c 0 LEN x))^[n] (specFill d 0 LEN y)).take LEN
      = List.replicate LEN (accum a c d n) := by
  apply List.ext_getElem?
  intro j
  rw [List.getElem?_take, List.getElem?_replicate]
  by_cases hj : j < LEN
  · rw [if_pos hj, if_pos hj, final_get a c d 0 LEN LEN n j x y hj (by omega) (by omega)]
    simp [hj]
  · rw [if_neg hj, if_neg hj]

theorem take_offset [Mul α] [Add α] (a c d : α) (LEN n : Nat) (x y : List α)
    (hLEN : 1 ≤ LEN) (hx : LEN ≤ x.length) (hy : LEN ≤ y.length) :
    ((specKernel a 1 (LEN + 1) (specFill c 0 LEN x))^[n] (specFill d 0 LEN y)).take LEN
      = d :: List.replicate (LEN - 1) (accum a c d n) := by
  apply List.ext_getElem?
  intro j
  rw [List.getElem?_take]
  by_cases hj : j < LEN
  · rw [if_pos hj, final_get a c d 1 (LEN + 1) LEN n j x y hj (by omega) (by omega)]
    cases j with
    | zero => simp
    | succ k =>
      have h1 : 1 ≤ k + 1 ∧ k + 1 < LEN + 1 := by omega
      have hk : k < LEN - 1 := by omega
      rw [if_pos h1, List.getElem?_cons_succ, List.getElem?_replicate, if_pos hk]
  · rw [if_neg hj]
    symm
    apply List.getElem?_eq_none
    simp
    omega

theorem accum_rat (a c d : ℚ) (n : Nat) : accum a c d n = d + n * a * c := by
  induction n with
  | zero => simp [accum]
  | succ n ih =>
    unfold accum at *
    rw [Function.iterate_succ_apply', ih]
    push_cast
    ring

theorem sumFrom_replicate_rat (acc v : ℚ) (k : Nat) :
    sumFrom acc (List.replicate k v) = acc + k * v := by
  induction k generalizing acc with
  | zero => simp [sumFrom]
  | succ k ih =>
    have h : sumFrom acc (List.replicate (k + 1) v) = sumFrom (acc + v) (List.replicate k v) := by
      simp [sumFrom, List.replicate_succ]
    rw [h, ih]
    push_cast
    ring

theorem WellSized.fits_sized {LEN m : Nat} {s : State α} (h : WellSized LEN s) (hm : m ≤ LEN + 1) :
    Fits m s := by
  obtain ⟨hx, hy, _⟩ := h
  exact ⟨by omega, by omega⟩

theorem run_spec [Mul α] [Add α] (a c d : α) (lo hi LEN n : Nat)
    (body : State α → Except Fault (State α)) (hb : Realises a lo hi body)
    (s : State α) (hf : Fits hi s) (hle : LEN ≤ hi) :
    ∃ s0 s1, init c d LEN s = .ok s0 ∧ iterN body n s0 = .ok s1
      ∧ Ini c d 0 LEN s s0 ∧ Iter a lo hi n s0 s1 := by
  obtain ⟨s0, h0, i0⟩ := init_spec c d LEN s ⟨by have := hf.1; omega, by have := hf.2; omega⟩
  obtain ⟨s1, h1, i1⟩ := iterN_realises a lo hi body hb n s0 (i0.fits_ini hf)
  exact ⟨s0, s1, h0, h1, i0, i1⟩

theorem variantN_spec [Mul α] [Add α] [Zero α] (a c d : α) (lo hi LEN n : Nat)
    (body : State α → Except Fault (State α)) (hb : Realises a lo hi body)
    (s : State α) (hf : Fits hi s) (hle : LEN ≤ hi) :
    ∃ s0 s1 lg, init c d LEN s = .ok s0 ∧ iterN body n s0 = .ok s1
      ∧ Ini c d 0 LEN s s0 ∧ Iter a lo hi n s0 s1
      ∧ variantN body c d LEN n s
          = .ok ({ s1 with log := s1.log ++ lg }, sumFrom 0 (s1.y.take LEN))
      ∧ ∀ j, j ∈ lg ↔ j < LEN := by
  obtain ⟨s0, s1, h0, h1, i0, i1⟩ := run_spec a c d lo hi LEN n body hb s hf hle
  have hy : LEN ≤ s1.y.length := by
    rw [i1.y_eq, iter_specKernel_length, i0.y_eq, specFill_length]
    have := hf.2
    omega
  obtain ⟨lg, hc, hm⟩ := check_spec LEN s1 hy
  exact ⟨s0, s1, lg, h0, h1, i0, i1, by simp [variantN, h0, h1, hc], hm⟩

theorem outerLoop_eq_iterN {σ : Type} (body : σ → Except Fault σ) (ntimes : Nat)
    (hn : ntimes < U32) :
    ∀ (fuel nl : Nat) (s : σ), nl ≤ ntimes → ntimes - nl ≤ fuel →
      outerLoop body ntimes fuel nl s = iterN body (ntimes - nl) s := by
  intro fuel
  induction fuel with
  | zero =>
    intro nl s hle hfuel
    have h0 : ntimes - nl = 0 := by omega
    have hlt : ¬ nl < ntimes := by omega
    simp [outerLoop, hlt, h0, iterN]
  | succ fuel ih =>
    intro nl s hle hfuel
    by_cases hlt : nl < ntimes
    · obtain ⟨m, hm⟩ : ∃ m, ntimes - nl = m + 1 := ⟨ntimes - nl - 1, by omega⟩
      have hwrap : (nl + 1) % U32 = nl + 1 := Nat.mod_eq_of_lt (by omega)
      have hm2 : ntimes - (nl + 1) = m := by omega
      rw [hm]
      simp only [outerLoop, if_pos hlt, iterN, hwrap]
      cases hb : body s with
      | error e => rfl
      | ok s1 =>
        simp only []
        rw [ih (nl + 1) s1 (by omega) (by omega), hm2]
    · have h0 : ntimes - nl = 0 := by omega
      simp [outerLoop, hlt, h0, iterN]

theorem outerLoop_diverges {σ : Type} (body : σ → Except Fault σ) (ntimes : Nat)
    (hn : U32 ≤ ntimes) (P : σ → Prop)
    (hbody : ∀ s, P s → ∃ s1, body s = .ok s1 ∧ P s1) :
    ∀ (fuel nl : Nat) (s : σ), nl < U32 → P s →
      outerLoop body ntimes fuel nl s = .error .outOfFuel := by
  intro fuel
  induction fuel with
  | zero =>
    intro nl s hnl _
    have hlt : nl < ntimes := by omega
    simp [outerLoop, hlt]
  | succ fuel ih =>
    intro nl s hnl hP
    have hlt : nl < ntimes := by omega
    obtain ⟨s1, hb, hP1⟩ := hbody s hP
    have hU : 0 < U32 := by unfold U32; norm_num
    simp only [outerLoop, if_pos hlt, hb]
    exact ih ((nl + 1) % U32) s1 (Nat.mod_lt _ hU) hP1

theorem variant_eq_variantN [Add α] [Zero α] (body : State α → Except Fault (State α))
    (c d : α) (LEN ntimes fuel : Nat) (s : State α) (hn : ntimes < U32)
    (hfuel : ntimes ≤ fuel) :
    variant body c d LEN ntimes fuel s = variantN body c d LEN ntimes s := by
  unfold variant variantN
  cases init c d LEN s with
  | error e => rfl
  | ok s0 =>
    simp only []
    rw [outerLoop_eq_iterN body ntimes hn fuel 0 s0 (Nat.zero_le _) (by omega)]
    rfl

theorem variantN_summary [Mul α] [Add α] [Zero α] (a c d : α) (lo hi LEN n : Nat)
    (body : State α → Except Fault (State α)) (hb : Realises a lo hi body)
    (s : State α) (hf : Fits hi s) (hle : LEN ≤ hi) :
    ∃ r lg, variantN body c d LEN n s = .ok r
      ∧ r.1.x = specFill c 0 LEN s.x
      ∧ r.1.y = (specKernel a lo hi (specFill c 0 LEN s.x))^[n] (specFill d 0 LEN s.y)
      ∧ r.1.z = s.z
      ∧ r.1.calls = s.calls ++ (List.range n).map (fun k =>
          (specFill c 0 LEN s.x,
            (specKernel a lo hi (specFill c 0 LEN s.x))^[k + 1] (specFill d 0 LEN s.y), s.z, a))
      ∧ r.1.log = s.log ++ lg
      ∧ (∀ j ∈ lg, j < LEN ∨ (lo ≤ j ∧ j < hi))
      ∧ (∀ j, j < LEN → j ∈ lg)
      ∧ (0 < n → ∀ j, lo ≤ j → j < hi → j ∈ lg)
      ∧ r.2 = sumFrom 0 (r.1.y.take LEN) := by
  obtain ⟨s0, s1, lg3, _, _, i0, i1, hv, m3⟩ :=
    variantN_spec a c d lo hi LEN n body hb s hf hle
  obtain ⟨lg1, e1, m1⟩ := i0.log_eq
  obtain ⟨lg2, e2, m2, m2b⟩ := i1.log_eq
  refine ⟨_, lg1 ++ lg2 ++ lg3, hv, ?_, ?_, ?_, ?_, ?_, ?_, ?_, ?_, rfl⟩
  · show s1.x = _
    rw [i1.x_eq, i0.x_eq]
  · show s1.y = _
    rw [i1.y_eq, i0.x_eq, i0.y_eq]
  · show s1.z = _
    rw [i1.z_eq, i0.z_eq]
  · show s1.calls = _
    rw [i1.calls_eq, i0.calls_eq, i0.x_eq, i0.y_eq, i0.z_eq]
  · show s1.log ++ lg3 = _
    rw [e2, e1, List.append_assoc, List.append_assoc, List.append_assoc]
  · intro j hj
    rcases List.mem_append.mp hj with h | h
    · rcases List.mem_append.mp h with h | h
      · exact Or.inl ((m1 j).mp h).2
      · exact Or.inr (m2 j h)
    · exact Or.inl ((m3 j).mp h)
  · intro j hj
    exact List.mem_append.mpr (Or.inr ((m3 j).mpr hj))
  · intro hn j hlo hhi
    exact List.mem_append.mpr (Or.inl (List.mem_append.mpr (Or.inr (m2b hn j hlo hhi))))

theorem checksum_aligned (a c d : ℚ) (LEN n : Nat)
    (body : State ℚ → Except Fault (State ℚ)) (hb : Realises a 0 LEN body)
    (s : State ℚ) (hs : WellSized LEN s) :
    ∃ s1, variantN body c d LEN n s = .ok (s1, (LEN : ℚ) * (d + n * a * c)) := by
  obtain ⟨r, lg, hv, _, hy, _, _, _, _, _, _, hsum⟩ :=
    variantN_summary a c d 0 LEN LEN n body hb s (hs.fits_sized (by omega)) (Nat.le_refl _)
  refine ⟨r.1, ?_⟩
  have h2 : r.2 = (LEN : ℚ) * (d + n * a * c) := by
    rw [hsum, hy, take_aligned a c d LEN n s.x s.y (by have := hs.1; omega)
      (by have := hs.2.1; omega), sumFrom_replicate_rat, accum_rat]
    ring
  rw [hv, ← h2]

theorem checksum_offset (a c d : ℚ) (LEN n : Nat) (hLEN : 1 ≤ LEN)
    (body : State ℚ → Except Fault (State ℚ)) (hb : Realises a 1 (LEN + 1) body)
    (s : State ℚ) (hs : WellSized LEN s) :
    ∃ s1, variantN body c d LEN n s = .ok (s1, d + ((LEN : ℚ) - 1) * (d + n * a * c)) := by
  obtain ⟨r, lg, hv, _, hy, _, _, _, _, _, _, hsum⟩ :=
    variantN_summary a c d 1 (LEN + 1) LEN n body hb s (hs.fits_sized (Nat.le_refl _)) (by omega)
  refine ⟨r.1, ?_⟩
  have h2 : r.2 = d + ((LEN : ℚ) - 1) * (d + n * a * c) := by
    rw [hsum, hy, take_offset a c d LEN n s.x s.y hLEN (by have := hs.1; omega)
      (by have := hs.2.1; omega)]
    have hcons : sumFrom (0 : ℚ) (d :: List.replicate (LEN - 1) (accum a c d n))
        = sumFrom (0 + d) (List.replicate (LEN - 1) (accum a c d n)) := by
      simp [sumFrom]
    rw [hcons, sumFrom_replicate_rat, accum_rat, Nat.cast_sub hLEN]
    push_cast
    ring
  rw [hv, ← h2]

theorem wellSized_fresh (LEN : Nat) (v : α) : WellSized LEN (freshState LEN v) := by
  simp [WellSized, freshState]

theorem four_variants_eq [Mul α] [Add α] [Zero α] (W LEN ntimes fuel : Nat) (c d a : α)
    (s : State α) (hn : ntimes < U32) (hfuel : ntimes ≤ fuel) :
    axpy_align_v1 c d a LEN ntimes fuel s = variantN (v1_body LEN a) c d LEN ntimes s
    ∧ axpy_align_v2 c d a LEN ntimes fuel s = variantN (v2_body LEN a) c d LEN ntimes s
    ∧ axpy_align_v1_intr W c d a LEN ntimes fuel s
        = variantN (v1_intr_body W LEN a) c d LEN ntimes s
    ∧ axpy_align_v2_intr W c d a LEN ntimes fuel s
        = variantN (v2_intr_body W LEN a) c d LEN ntimes s :=
  ⟨variant_eq_variantN _ c d LEN ntimes fuel s hn hfuel,
    variant_eq_variantN _ c d LEN ntimes fuel s hn hfuel,
    variant_eq_variantN _ c d LEN ntimes fuel s hn hfuel,
    variant_eq_variantN _ c d LEN ntimes fuel s hn hfuel⟩

theorem take_final_indep [Mul α] [Add α] (a c d : α) (lo hi LEN n : Nat) (x y x1 y1 : List α)
    (hx : LEN ≤ x.length) (hy : LEN ≤ y.length) (hx1 : LEN ≤ x1.length)
    (hy1 : LEN ≤ y1.length) :
    ((specKernel a lo hi (specFill c 0 LEN x))^[n] (specFill d 0 LEN y)).take LEN
      = ((specKernel a lo hi (specFill c 0 LEN x1))^[n] (specFill d 0 LEN y1)).take LEN := by
  apply List.ext_getElem?
  intro j
  rw [List.getElem?_take, List.getElem?_take]
  by_cases hj : j < LEN
  · rw [if_pos hj, if_pos hj, final_get a c d lo hi LEN n j x y hj (by omega) (by omega),
      final_get a c d lo hi LEN n j x1 y1 hj (by omega) (by omega)]
  · rw [if_neg hj, if_neg hj]

theorem no_leak [Mul α] [Add α] [Zero α] (a c d : α) (lo hi LEN n : Nat)
    (body : State α → Except Fault (State α)) (hb : Realises a lo hi body)
    (hle : LEN ≤ hi) (hhi : hi ≤ LEN + 1) (s t : State α)
    (hs : WellSized LEN s) (ht : WellSized LEN t) :
    ∃ r1 r2, variantN body c d LEN n s = .ok r1 ∧ variantN body c d LEN n t = .ok r2
      ∧ r1.1.y.take LEN = r2.1.y.take LEN ∧ r1.2 = r2.2 ∧ WellSized LEN r1.1 := by
  obtain ⟨r1, _, hv1, hx1, hy1, hz1, _, _, _, _, _, hs1⟩ :=
    variantN_summary a c d lo hi LEN n body hb s (hs.fits_sized hhi) hle
  obtain ⟨r2, _, hv2, _, hy2, _, _, _, _, _, _, hs2⟩ :=
    variantN_summary a c d lo hi LEN n body hb t (ht.fits_sized hhi) hle
  have htake : r1.1.y.take LEN = r2.1.y.take LEN := by
    rw [hy1, hy2]
    exact take_final_indep a c d lo hi LEN n s.x s.y t.x t.y (by have := hs.1; omega)
      (by have := hs.2.1; omega) (by have := ht.1; omega) (by have := ht.2.1; omega)
  refine ⟨r1, r2, hv1, hv2, htake, by rw [hs1, hs2, htake], ?_⟩
  refine ⟨?_, ?_, ?_⟩
  · rw [hx1, specFill_length]; exact hs.1
  · rw [hy1, iter_specKernel_length, specFill_length]; exact hs.2.1
  · rw [hz1]; exact hs.2.2

theorem twice [Mul α] [Add α] [Zero α] (a c d : α) (lo hi LEN n : Nat)
    (body : State α → Except Fault (State α)) (hb : Realises a lo hi body)
    (hle : LEN ≤ hi) (hhi : hi ≤ LEN + 1) (s : State α) (hs : WellSized LEN s) :
    ∃ r1 r2, variantN body c d LEN n s = .ok r1 ∧ variantN body c d LEN n r1.1 = .ok r2
      ∧ r2.2 = r1.2 := by
  obtain ⟨r1, _, hv1, _, _, _, hw⟩ := no_leak a c d lo hi LEN n body hb hle hhi s s hs hs
  obtain ⟨r2, r3, hv2, hv3, _, he, _⟩ := no_leak a c d lo hi LEN n body hb hle hhi r1.1 s hw hs
  rw [hv1] at hv3
  cases hv3
  exact ⟨r1, r2, hv1, hv2, he⟩

theorem refines [Mul α] [Add α] (a : α) (lo hi n : Nat)
    (body1 body2 : State α → Except Fault (State α)) (h1 : Realises a lo hi body1)
    (h2 : Realises a lo hi body2) (s : State α) (hf : Fits hi s) :
    ∃ s1 s2, iterN body1 n s = .ok s1 ∧ iterN body2 n s = .ok s2
      ∧ s1.x = s2.x ∧ s1.y = s2.y ∧ s1.z = s2.z ∧ s1.calls = s2.calls
      ∧ s2.x = s.x ∧ s2.z = s.z ∧ s2.y = (specKernel a lo hi s.x)^[n] s.y := by
  obtain ⟨s1, e1, i1⟩ := iterN_realises a lo hi body1 h1 n s hf
  obtain ⟨s2, e2, i2⟩ := iterN_realises a lo hi body2 h2 n s hf
  exact ⟨s1, s2, e1, e2, by rw [i1.x_eq, i2.x_eq], by rw [i1.y_eq, i2.y_eq],
    by rw [i1.z_eq, i2.z_eq], by rw [i1.calls_eq, i2.calls_eq], i2.x_eq, i2.z_eq, i2.y_eq⟩

theorem refines_variant [Mul α] [Add α] [Zero α] (a c d : α) (lo hi LEN n : Nat)
    (body1 body2 : State α → Except Fault (State α)) (h1 : Realises a lo hi body1)
    (h2 : Realises a lo hi body2) (hle : LEN ≤ hi) (s : State α) (hf : Fits hi s) :
    ∃ r1 r2, variantN body1 c d LEN n s = .ok r1 ∧ variantN body2 c d LEN n s = .ok r2
      ∧ r1.1.x = r2.1.x ∧ r1.1.y = r2.1.y ∧ r1.1.z = r2.1.z ∧ r1.2 = r2.2 := by
  obtain ⟨r1, _, hv1, hx1, hy1, hz1, _, _, _, _, _, hs1⟩ :=
    variantN_summary a c d lo hi LEN n body1 h1 s hf hle
  obtain ⟨r2, _, hv2, hx2, hy2, hz2, _, _, _, _, _, hs2⟩ :=
    variantN_summary a c d lo hi LEN n body2 h2 s hf hle
  exact ⟨r1, r2, hv1, hv2, by rw [hx1, hx2], by rw [hy1, hy2], by rw [hz1, hz2],
    by rw [hs1, hs2, hy1, hy2]⟩

theorem forLoop_single {σ : Type} (body : Nat → σ → Except Fault σ) (W : Nat) (hW : 0 < W)
    (s : σ) : forLoop body W W W 0 s = body 0 s := by
  obtain ⟨k, rfl⟩ : ∃ k, W = k + 1 := ⟨W - 1, by omega⟩
  have h0 : (0 : Nat) < k + 1 := hW
  simp only [forLoop, if_pos h0]
  cases body 0 s with
  | error e => rfl
  | ok s1 =>
    have hn : ¬ (0 + (k + 1) < k + 1) := by omega
    cases k <;> simp [forLoop]

theorem access_bounds [Mul α] [Add α] [Zero α] (a c d : α) (lo hi LEN n : Nat)
    (body : State α → Except Fault (State α)) (hb : Realises a lo hi body)
    (s : State α) (hf : Fits hi s) (hle : LEN ≤ hi) (hlog : s.log = []) :
    ∃ r, variantN body c d LEN n s = .ok r
      ∧ (∀ i ∈ r.1.log, i < LEN ∨ (lo ≤ i ∧ i < hi))
      ∧ (∀ i, i < LEN → i ∈ r.1.log)
      ∧ (0 < n → ∀ i, lo ≤ i → i < hi → i ∈ r.1.log) := by
  obtain ⟨r, lg, hv, _, _, _, _, hl, m1, m2, m3, _⟩ :=
    variantN_summary a c d lo hi LEN n body hb s hf hle
  have hl2 : r.1.log = lg := by rw [hl, hlog]; rfl
  refine ⟨r, hv, ?_, ?_, ?_⟩
  · rw [hl2]; exact m1
  · rw [hl2]; exact m2
  · rw [hl2]; exact m3

theorem calls_spec [Mul α] [Add α] [Zero α] (a c d : α) (lo hi LEN n : Nat)
    (body : State α → Except Fault (State α)) (hb : Realises a lo hi body)
    (s : State α) (hf : Fits hi s) (hle : LEN ≤ hi) (hc : s.calls = []) :
    ∃ r, variantN body c d LEN n s = .ok r ∧ r.1.calls.length = n
      ∧ ∀ k, 1 ≤ k → k ≤ n →
          ∃ yk, r.1.calls[k - 1]? = some (specFill c 0 LEN s.x, yk, s.z, a)
            ∧ yk = (specKernel a lo hi (specFill c 0 LEN s.x))^[k] (specFill d 0 LEN s.y)
            ∧ ∀ j, j < LEN → yk[j]? = some (if lo ≤ j ∧ j < hi then accum a c d k else d) := by
  obtain ⟨r, lg, hv, _, _, _, hcalls, _, _, _, _, _⟩ :=
    variantN_summary a c d lo hi LEN n body hb s hf hle
  rw [hc, List.nil_append] at hcalls
  refine ⟨r, hv, by rw [hcalls]; simp, ?_⟩
  intro k hk1 hkn
  refine ⟨_, ?_, rfl, ?_⟩
  · obtain ⟨m, rfl⟩ : ∃ m, k = m + 1 := ⟨k - 1, by omega⟩
    rw [hcalls, List.getElem?_map, Nat.add_sub_cancel, List.getElem?_range (by omega)]
    rfl
  · intro j hj
    exact final_get a c d lo hi LEN k j s.x s.y hj (by have := hf.1; omega)
      (by have := hf.2; omega)

theorem forLoop_terminates {σ : Type} (body : Nat → σ → Except Fault σ) (stop step : Nat)
    (hbody : ∀ i s, body i s ≠ .error .outOfFuel) :
    ∀ (fuel i : Nat) (s : σ), stop ≤ i + fuel * step →
      forLoop body stop step fuel i s ≠ .error .outOfFuel := by
  intro fuel
  induction fuel with
  | zero =>
    intro i s h
    have hi : ¬ i < stop := by omega
    simp [forLoop, hi]
  | succ fuel ih =>
    intro i s h
    by_cases hi : i < stop
    · simp only [forLoop, if_pos hi]
      cases hb : body i s with
      | error e =>
        intro hc
        apply hbody i s
        rw [hb]
        exact hc
      | ok s1 =>
        apply ih
        have hmul : (fuel + 1) * step = fuel * step + step := Nat.succ_mul fuel step
        omega
    · simp [forLoop, hi]

theorem forLoop_terminates_call {σ : Type} (body : Nat → σ → Except Fault σ) (LEN step : Nat)
    (hstep : 0 < step) (hbody : ∀ i s, body i s ≠ .error .outOfFuel) (s : σ) :
    forLoop body LEN step LEN 0 s ≠ .error .outOfFuel := by
  apply forLoop_terminates body LEN step hbody
  have : LEN ≤ LEN * step := Nat.le_mul_of_pos_right LEN hstep
  omega

theorem readAt_terminates (l : List α) (i : Nat) : readAt l i ≠ .error .outOfFuel := by
  unfold readAt
  cases l[i]? <;> simp

theorem initAt_terminates (c d : α) (i : Nat) (s : State α) :
    initAt c d i s ≠ .error .outOfFuel := by
  unfold initAt
  split <;> simp

theorem checkAt_terminates [Add α] (i : Nat) (p : State α × α) :
    checkAt i p ≠ .error .outOfFuel := by
  unfold checkAt
  have h := readAt_terminates p.1.y i
  cases hr : readAt p.1.y i with
  | ok v => simp
  | error e =>
    rw [hr] at h
    simpa using h

theorem axpyAt_terminates [Mul α] [Add α] (a : α) (i : Nat) (s : State α) :
    axpyAt a i s ≠ .error .outOfFuel := by
  unfold axpyAt
  have hx := readAt_terminates s.x i
  have hy := readAt_terminates s.y i
  cases h1 : readAt s.x i with
  | error e =>
    rw [h1] at hx
    simpa using hx
  | ok xv =>
    cases h2 : readAt s.y i with
    | error e =>
      rw [h2] at hy
      simpa using hy
    | ok yv => simp

theorem loadu_terminates (W : Nat) (l : List α) (i : Nat) :
    loadu W l i ≠ .error .outOfFuel := by
  unfold loadu
  split <;> simp

theorem load_terminates (W : Nat) (l : List α) (i : Nat) :
    load W l i ≠ .error .outOfFuel := by
  unfold load
  split
  · exact loadu_terminates W l i
  · simp

theorem storeu_terminates (l : List α) (i : Nat) (v : List α) :
    storeu l i v ≠ .error .outOfFuel := by
  unfold storeu
  split <;> simp

theorem store_terminates (W : Nat) (l : List α) (i : Nat) (v : List α) :
    store W l i v ≠ .error .outOfFuel := by
  unfold store
  split
  · exact storeu_terminates l i v
  · simp

theorem vecAt_v1_terminates [Mul α] [Add α] (W : Nat) (va : List α) (i : Nat) (s : State α) :
    vecAt_v1 W va i s ≠ .error .outOfFuel := by
  unfold vecAt_v1
  have hx := load_terminates W s.x i
  have hy := load_terminates W s.y i
  cases h1 : load W s.x i with
  | error e =>
    rw [h1] at hx
    simpa using hx
  | ok vX =>
    cases h2 : load W s.y i with
    | error e =>
      rw [h2] at hy
      simpa using hy
    | ok vY =>
      have hs := store_terminates W s.y i (add_pd (mul_pd va vX) vY)
      cases h3 : store W s.y i (add_pd (mul_pd va vX) vY) with
      | error e =>
        rw [h3] at hs
        simpa [h3] using hs
      | ok y1 => simp [h3]

theorem vecAt_v2_terminates [Mul α] [Add α] (W : Nat) (va : List α) (i : Nat) (s : State α) :
    vecAt_v2 W va i s ≠ .error .outOfFuel := by
  unfold vecAt_v2
  have hx := loadu_terminates W s.x (i + 1)
  have hy := loadu_terminates W s.y (i + 1)
  cases h1 : loadu W s.x (i + 1) with
  | error e =>
    rw [h1] at hx
    simpa using hx
  | ok vX =>
    cases h2 : loadu W s.y (i + 1) with
    | error e =>
      rw [h2] at hy
      simpa using hy
    | ok vY =>
      have hs := storeu_terminates s.y (i + 1) (add_pd (mul_pd va vX) vY)
      cases h3 : storeu s.y (i + 1) (add_pd (mul_pd va vX) vY) with
      | error e =>
        rw [h3] at hs
        simpa [h3] using hs
      | ok y1 => simp [h3]

theorem v1_body_terminates [Mul α] [Add α] (LEN : Nat) (a : α) (s : State α) :
    v1_body LEN a s ≠ .error .outOfFuel := by
  have h := forLoop_terminates_call (fun i => axpyAt a i) LEN 1 Nat.one_pos
    (fun i t => axpyAt_terminates a i t) s
  unfold v1_body
  cases hr : forLoop (fun i => axpyAt a i) LEN 1 LEN 0 s with
  | ok s1 => simp
  | error e =>
    rw [hr] at h
    simpa using h

theorem v2_body_terminates [Mul α] [Add α] (LEN : Nat) (a : α) (s : State α) :
    v2_body LEN a s ≠ .error .outOfFuel := by
  have h := forLoop_terminates_call (fun i => axpyAt a (i + 1)) LEN 1 Nat.one_pos
    (fun i t => axpyAt_terminates a (i + 1) t) s
  unfold v2_body
  cases hr : forLoop (fun i => axpyAt a (i + 1)) LEN 1 LEN 0 s with
  | ok s1 => simp
  | error e =>
    rw [hr] at h
    simpa using h

theorem v1_intr_body_terminates [Mul α] [Add α] (W LEN : Nat) (hW : 0 < W) (a : α)
    (s : State α) : v1_intr_body W LEN a s ≠ .error .outOfFuel := by
  have h := forLoop_terminates_call (vecAt_v1 W (set1 W a)) LEN W hW
    (fun i t => vecAt_v1_terminates W (set1 W a) i t) s
  cases hr : forLoop (vecAt_v1 W (set1 W a)) LEN W LEN 0 s with
  | ok s1 => simp [v1_intr_body, hr]
  | error e =>
    rw [hr] at h
    simpa [v1_intr_body, hr] using h

theorem v2_intr_body_terminates [Mul α] [Add α] (W LEN : Nat) (hW : 0 < W) (a : α)
    (s : State α) : v2_intr_body W LEN a s ≠ .error .outOfFuel := by
  have h := forLoop_terminates_call (vecAt_v2 W (set1 W a)) LEN W hW
    (fun i t => vecAt_v2_terminates W (set1 W a) i t) s
  cases hr : forLoop (vecAt_v2 W (set1 W a)) LEN W LEN 0 s with
  | ok s1 => simp [v2_intr_body, hr]
  | error e =>
    rw [hr] at h
    simpa [v2_intr_body, hr] using h

theorem iterN_terminates {σ : Type} (body : σ → Except Fault σ)
    (hbody : ∀ s, body s ≠ .error .outOfFuel) :
    ∀ (n : Nat) (s : σ), iterN body n s ≠ .error .outOfFuel := by
  intro n
  induction n with
  | zero => intro s; simp [iterN]
  | succ n ih =>
    intro s
    simp only [iterN]
    cases hb : body s with
    | error e =>
      intro hc
      apply hbody s
      rw [hb]
      exact hc
    | ok s1 => exact ih s1

theorem variant_terminates [Add α] [Zero α] (body : State α → Except Fault (State α))
    (hbody : ∀ s, body s ≠ .error .outOfFuel) (c d : α) (LEN ntimes fuel : Nat)
    (s : State α) (hn : ntimes < U32) (hfuel : ntimes ≤ fuel) :
    variant body c d LEN ntimes fuel s ≠ .error .outOfFuel := by
  rw [variant_eq_variantN body c d LEN ntimes fuel s hn hfuel]
  unfold variantN
  have h0 : init c d LEN s ≠ .error .outOfFuel :=
    forLoop_terminates_call _ LEN 1 Nat.one_pos (fun i t => initAt_terminates c d i t) s
  cases hi : init c d LEN s with
  | error e =>
    rw [hi] at h0
    simpa using h0
  | ok s0 =>
    simp only []
    have h1 := iterN_terminates body hbody ntimes s0
    cases hit : iterN body ntimes s0 with
    | error e =>
      rw [hit] at h1
      simpa using h1
    | ok s1 =>
      simp only []
      exact forLoop_terminates_call checkAt LEN 1 Nat.one_pos
        (fun i p => checkAt_terminates i p) (s1, 0)

theorem variant_diverges [Mul α] [Add α] [Zero α] (a c d : α) (lo hi LEN ntimes fuel : Nat)
    (body : State α → Except Fault (State α)) (hb : Realises a lo hi body)
    (s : State α) (hf : Fits hi s) (hle : LEN ≤ hi) (hn : U32 ≤ ntimes) :
    variant body c d LEN ntimes fuel s = .error .outOfFuel := by
  obtain ⟨s0, h0, i0⟩ := init_spec c d LEN s ⟨by have := hf.1; omega, by have := hf.2; omega⟩
  have hd := outerLoop_diverges body ntimes hn (Fits hi)
    (fun t ht => (hb t ht).elim fun t1 h => ⟨t1, h.1, h.2.fits_step ht⟩) fuel 0 s0
    (by unfold U32; norm_num) (i0.fits_ini hf)
  simp [variant, h0, hd]

theorem variant_ok [Mul α] [Add α] [Zero α] (a c d : α) (lo hi LEN ntimes fuel : Nat)
    (body : State α → Except Fault (State α)) (hb : Realises a lo hi body)
    (s : State α) (hf : Fits hi s) (hle : LEN ≤ hi) (hn : ntimes < U32)
    (hfuel : ntimes ≤ fuel) :
    ∃ r, variant body c d LEN ntimes fuel s = .ok r := by
  obtain ⟨r, _, hv, _⟩ := variantN_summary a c d lo hi LEN ntimes body hb s hf hle
  exact ⟨r, by rw [variant_eq_variantN body c d LEN ntimes fuel s hn hfuel, hv]⟩

theorem NTIMES_eq (LEN : Nat) (h1 : 1 ≤ LEN) (h2 : LEN < 2 ^ 31) :
    NTIMES LEN = 16106127360 / LEN := by
  have hF : FLOP_COUNT = 32212254720 := by decide
  have hm : (LEN % U64 * (FLOP_IT % U64)) % U64 = 2 * LEN := by
    unfold U64 FLOP_IT
    omega
  unfold NTIMES NTIMES_of
  rw [hm, hF, ← Nat.div_div_eq_div_mul]

theorem NTIMES_small_iff (LEN : Nat) (h1 : 1 ≤ LEN) (h2 : LEN < 2 ^ 31) :
    NTIMES LEN ≤ 2 ^ 32 - 1 ↔ 4 ≤ LEN := by
  rw [NTIMES_eq LEN h1 h2]
  constructor
  · intro h
    by_contra hc
    have h3 : LEN ≤ 3 := by omega
    interval_cases LEN <;> omega
  · intro h
    have h5 : 16106127360 / LEN ≤ 16106127360 / 4 := Nat.div_le_div_left h (by norm_num)
    omega

end Lemmas

/-! ## The claims -/

/-- C1: in exact arithmetic and with `dummy` leaving the buffers unchanged,
`init()` followed by `n` outer iterations of a scalar kernel leaves `x` as
`init` set it and gives `y[i] = Y0 + n * alpha * X0 = 0.5 + n / 2` at every
index that is both initialised and updated: every `i < LEN` for
`axpy_align_v1`, every `1 ≤ i < LEN` for `axpy_align_v2`. -/
theorem C1_closed_form (LEN n : Nat) (s : State ℚ) (hs : WellSized LEN s) :
    (∃ s0 s1, init X0 Y0 LEN s = .ok s0 ∧ iterN (v1_body LEN alpha) n s0 = .ok s1
        ∧ s1.x = s0.x
        ∧ ∀ i, i < LEN → s1.y[i]? = some (Y0 + n * alpha * X0))
    ∧ (∃ s0 s1, init X0 Y0 LEN s = .ok s0 ∧ iterN (v2_body LEN alpha) n s0 = .ok s1
        ∧ s1.x = s0.x
        ∧ ∀ i, 1 ≤ i → i < LEN → s1.y[i]? = some (Y0 + n * alpha * X0))
    ∧ Y0 + (n : ℚ) * alpha * X0 = 1 / 2 + n / 2 := by
  have hxl := hs.1
  have hyl := hs.2.1
  refine ⟨?_, ?_, ?_⟩
  · obtain ⟨s0, s1, h0, h1, i0, i1⟩ :=
      run_spec alpha X0 Y0 0 LEN LEN n (v1_body LEN alpha) (v1_body_realises alpha LEN) s
        (hs.fits_sized (by omega)) (Nat.le_refl _)
    refine ⟨s0, s1, h0, h1, i1.x_eq, ?_⟩
    intro i hi
    rw [i1.y_eq, i0.x_eq, i0.y_eq,
      final_get alpha X0 Y0 0 LEN LEN n i s.x s.y hi (by omega) (by omega), accum_rat]
    simp [hi]
  · obtain ⟨s0, s1, h0, h1, i0, i1⟩ :=
      run_spec alpha X0 Y0 1 (LEN + 1) LEN n (v2_body LEN alpha) (v2_body_realises alpha LEN) s
        (hs.fits_sized (Nat.le_refl _)) (by omega)
    refine ⟨s0, s1, h0, h1, i1.x_eq, ?_⟩
    intro i hi1 hi
    have hr : 1 ≤ i ∧ i < LEN + 1 := by omega
    rw [i1.y_eq, i0.x_eq, i0.y_eq,
      final_get alpha X0 Y0 1 (LEN + 1) LEN n i s.x s.y hi (by omega) (by omega), accum_rat,
      if_pos hr]
  · simp only [Y0, alpha, X0]
    ring

/-- Instance of C1 at `LEN = 1024` and `n = NTIMES = 15728640`, from the
zero-initialised static buffers: the accumulator holds `7864320.5`. -/
theorem C1_closed_form_witness :
    WellSized 1024 (freshState 1024 (0 : ℚ)) ∧ NTIMES 1024 = 15728640
    ∧ ∃ s0 s1, init X0 Y0 1024 (freshState 1024 (0 : ℚ)) = .ok s0
        ∧ iterN (v1_body 1024 alpha) 15728640 s0 = .ok s1
        ∧ s1.y[1023]? = some (15728641 / 2 : ℚ) := by
  refine ⟨wellSized_fresh 1024 0, by decide, ?_⟩
  obtain ⟨⟨s0, s1, h0, h1, _, hy⟩, _, _⟩ :=
    C1_closed_form 1024 15728640 (freshState 1024 (0 : ℚ)) (wellSized_fresh 1024 0)
  refine ⟨s0, s1, h0, h1, ?_⟩
  rw [hy 1023 (by decide)]
  simp only [Y0, alpha, X0]
  norm_num

/-- C2: in exact arithmetic and with `dummy` leaving the buffers unchanged, the
sum that `check(y)` computes at the end of `axpy_align_v1` (`init`, `R` outer
iterations, the sum of `y[0..LEN-1]`) is exactly
`LEN * (Y0 + R * alpha * X0) = LEN * (0.5 + 0.5 * R)`; the function itself, with
its 32-bit outer counter, returns this sum whenever `R < 2 ^ 32`. -/
theorem C2_checksum_aligned (LEN R : Nat) (s : State ℚ) (hs : WellSized LEN s) :
    (∃ s1, variantN (v1_body LEN alpha) X0 Y0 LEN R s
        = .ok (s1, (LEN : ℚ) * (Y0 + R * alpha * X0)))
    ∧ (R < U32 → ∀ fuel, R ≤ fuel →
        ∃ s1, axpy_align_v1 X0 Y0 alpha LEN R fuel s
          = .ok (s1, (LEN : ℚ) * (Y0 + R * alpha * X0)))
    ∧ (LEN : ℚ) * (Y0 + R * alpha * X0) = LEN * (1 / 2 + 1 / 2 * R) := by
  have h := checksum_aligned alpha X0 Y0 LEN R (v1_body LEN alpha)
    (v1_body_realises alpha LEN) s hs
  refine ⟨h, ?_, ?_⟩
  · intro hR fuel hfuel
    unfold axpy_align_v1
    rw [variant_eq_variantN (v1_body LEN alpha) X0 Y0 LEN R fuel s hR hfuel]
    exact h
  · simp only [Y0, alpha, X0]
    ring

/-- Instance of C2 at `LEN = 1024`, `R = NTIMES = 15728640`, from the
zero-initialised static buffers: `axpy_align_v1` prints `8053064192`. -/
theorem C2_checksum_aligned_witness :
    WellSized 1024 (freshState 1024 (0 : ℚ)) ∧ 15728640 < U32
    ∧ ∃ s1, axpy_align_v1 X0 Y0 alpha 1024 15728640 15728640 (freshState 1024 (0 : ℚ))
        = .ok (s1, 8053064192) := by
  have hU : 15728640 < U32 := by decide
  refine ⟨wellSized_fresh 1024 0, hU, ?_⟩
  obtain ⟨s1, h1⟩ :=
    (C2_checksum_aligned 1024 15728640 (freshState 1024 (0 : ℚ)) (wellSized_fresh 1024 0)).2.1
      hU 15728640 (Nat.le_refl _)
  refine ⟨s1, ?_⟩
  rw [h1]
  simp only [Y0, alpha, X0]
  norm_num

/-- C3 fails as stated: from the zero-initialised static buffers, with
`LEN = 1024` and `R = NTIMES`, `axpy_align_v1` ends with the checksum
`1024 * (0.5 + 0.5 * R)` but `axpy_align_v2` ends with a different one. -/
theorem C3_counterexample :
    ∃ s1 s2 c1 c2,
      axpy_align_v1 X0 Y0 alpha 1024 (NTIMES 1024) (NTIMES 1024) (freshState 1024 (0 : ℚ))
        = .ok (s1, c1)
      ∧ axpy_align_v2 X0 Y0 alpha 1024 (NTIMES 1024) (NTIMES 1024) (freshState 1024 (0 : ℚ))
        = .ok (s2, c2)
      ∧ c1 = 1024 * (1 / 2 + 1 / 2 * (NTIMES 1024 : ℚ))
      ∧ c2 ≠ 1024 * (1 / 2 + 1 / 2 * (NTIMES 1024 : ℚ))
      ∧ c2 ≠ c1 := by
  have hN : NTIMES 1024 = 15728640 := by decide
  have hU : 15728640 < U32 := by decide
  obtain ⟨s1, h1⟩ := checksum_aligned alpha X0 Y0 1024 15728640 (v1_body 1024 alpha)
    (v1_body_realises alpha 1024) (freshState 1024 (0 : ℚ)) (wellSized_fresh 1024 0)
  obtain ⟨s2, h2⟩ := checksum_offset alpha X0 Y0 1024 15728640 (by decide) (v2_body 1024 alpha)
    (v2_body_realises alpha 1024) (freshState 1024 (0 : ℚ)) (wellSized_fresh 1024 0)
  have g1 : axpy_align_v1 X0 Y0 alpha 1024 (NTIMES 1024) (NTIMES 1024)
      (freshState 1024 (0 : ℚ)) = .ok (s1, ((1024 : ℕ) : ℚ) * (Y0 + (15728640 : ℕ) * alpha * X0)) := by
    rw [hN]
    unfold axpy_align_v1
    rw [variant_eq_variantN _ X0 Y0 1024 15728640 15728640 _ hU (Nat.le_refl _)]
    exact h1
  have g2 : axpy_align_v2 X0 Y0 alpha 1024 (NTIMES 1024) (NTIMES 1024)
      (freshState 1024 (0 : ℚ))
      = .ok (s2, Y0 + (((1024 : ℕ) : ℚ) - 1) * (Y0 + (15728640 : ℕ) * alpha * X0)) := by
    rw [hN]
    unfold axpy_align_v2
    rw [variant_eq_variantN _ X0 Y0 1024 15728640 15728640 _ hU (Nat.le_refl _)]
    exact h2
  refine ⟨s1, s2, _, _, g1, g2, ?_, ?_, ?_⟩
  · rw [hN]
    simp only [Y0, alpha, X0]
    norm_num
  · rw [hN]
    simp only [Y0, alpha, X0]
    norm_num
  · simp only [Y0, alpha, X0]
    norm_num

/-- C3, amended: with `LEN = 1024` and `R = NTIMES`, in exact arithmetic and with
`dummy` leaving the buffers unchanged, the two aligned variants end with the
checksum `1024 * (0.5 + 0.5 * R)` and the two offset variants end with the
checksum `0.5 + 1023 * (0.5 + 0.5 * R)`; the checksums agree inside each
pair. -/
theorem C3_checksums_by_regime (W fuel : Nat) (s : State ℚ) (hW : 0 < W) (hdvd : W ∣ 1024)
    (hfuel : NTIMES 1024 ≤ fuel) (hs : WellSized 1024 s) :
    (∃ s1, axpy_align_v1 X0 Y0 alpha 1024 (NTIMES 1024) fuel s
        = .ok (s1, 1024 * (1 / 2 + 1 / 2 * (NTIMES 1024 : ℚ))))
    ∧ (∃ s1, axpy_align_v1_intr W X0 Y0 alpha 1024 (NTIMES 1024) fuel s
        = .ok (s1, 1024 * (1 / 2 + 1 / 2 * (NTIMES 1024 : ℚ))))
    ∧ (∃ s1, axpy_align_v2 X0 Y0 alpha 1024 (NTIMES 1024) fuel s
        = .ok (s1, 1 / 2 + 1023 * (1 / 2 + 1 / 2 * (NTIMES 1024 : ℚ))))
    ∧ (∃ s1, axpy_align_v2_intr W X0 Y0 alpha 1024 (NTIMES 1024) fuel s
        = .ok (s1, 1 / 2 + 1023 * (1 / 2 + 1 / 2 * (NTIMES 1024 : ℚ)))) := by
  have hN : NTIMES 1024 = 15728640 := by decide
  have hU : NTIMES 1024 < U32 := by decide
  have eA : ((1024 : ℕ) : ℚ) * (Y0 + (NTIMES 1024 : ℚ) * alpha * X0)
      = 1024 * (1 / 2 + 1 / 2 * (NTIMES 1024 : ℚ)) := by
    simp only [Y0, alpha, X0]
    push_cast
    ring
  have eO : Y0 + (((1024 : ℕ) : ℚ) - 1) * (Y0 + (NTIMES 1024 : ℚ) * alpha * X0)
      = 1 / 2 + 1023 * (1 / 2 + 1 / 2 * (NTIMES 1024 : ℚ)) := by
    simp only [Y0, alpha, X0]
    push_cast
    ring
  refine ⟨?_, ?_, ?_, ?_⟩
  · obtain ⟨s1, h1⟩ := checksum_aligned alpha X0 Y0 1024 (NTIMES 1024) (v1_body 1024 alpha)
      (v1_body_realises alpha 1024) s hs
    refine ⟨s1, ?_⟩
    unfold axpy_align_v1
    rw [variant_eq_variantN _ X0 Y0 1024 (NTIMES 1024) fuel s hU hfuel, h1, eA]
  · obtain ⟨s1, h1⟩ := checksum_aligned alpha X0 Y0 1024 (NTIMES 1024)
      (v1_intr_body W 1024 alpha) (v1_intr_body_realises W alpha 1024 hW hdvd) s hs
    refine ⟨s1, ?_⟩
    unfold axpy_align_v1_intr
    rw [variant_eq_variantN _ X0 Y0 1024 (NTIMES 1024) fuel s hU hfuel, h1, eA]
  · obtain ⟨s1, h1⟩ := checksum_offset alpha X0 Y0 1024 (NTIMES 1024) (by decide)
      (v2_body 1024 alpha) (v2_body_realises alpha 1024) s hs
    refine ⟨s1, ?_⟩
    unfold axpy_align_v2
    rw [variant_eq_variantN _ X0 Y0 1024 (NTIMES 1024) fuel s hU hfuel, h1, eO]
  · obtain ⟨s1, h1⟩ := checksum_offset alpha X0 Y0 1024 (NTIMES 1024) (by decide)
      (v2_intr_body W 1024 alpha) (v2_intr_body_realises W alpha 1024 hW hdvd) s hs
    refine ⟨s1, ?_⟩
    unfold axpy_align_v2_intr
    rw [variant_eq_variantN _ X0 Y0 1024 (NTIMES 1024) fuel s hU hfuel, h1, eO]

/-- Instance of the amended C3 for a register of `4` elements, from the
zero-initialised static buffers. -/
theorem C3_checksums_by_regime_witness :
    (0 < 4 ∧ 4 ∣ 1024 ∧ NTIMES 1024 ≤ 15728640 ∧ WellSized 1024 (freshState 1024 (0 : ℚ)))
    ∧ (∃ s1, axpy_align_v1_intr 4 X0 Y0 alpha 1024 (NTIMES 1024) 15728640
          (freshState 1024 (0 : ℚ))
        = .ok (s1, 1024 * (1 / 2 + 1 / 2 * (NTIMES 1024 : ℚ))))
    ∧ (∃ s1, axpy_align_v2_intr 4 X0 Y0 alpha 1024 (NTIMES 1024) 15728640
          (freshState 1024 (0 : ℚ))
        = .ok (s1, 1 / 2 + 1023 * (1 / 2 + 1 / 2 * (NTIMES 1024 : ℚ)))) := by
  have h := C3_checksums_by_regime 4 15728640 (freshState 1024 (0 : ℚ)) (by decide) (by decide)
    (by decide) (wellSized_fresh 1024 0)
  exact ⟨⟨by decide, by decide, by decide, wellSized_fresh 1024 0⟩, h.2.1, h.2.2.2⟩

/-- C9: `check` sums `y[0..LEN-1]` while the offset kernels update `y[1..LEN]`.
In exact arithmetic and with `dummy` leaving the buffers unchanged, for
`LEN ≥ 1` (a multiple of the register width for the intrinsic variant) the
checksum of `axpy_align_v2` and of `axpy_align_v2_intr` is
`Y0 + (LEN - 1) * (Y0 + R * alpha * X0) = 0.5 + (LEN - 1) * (0.5 + 0.5 * R)`, and
the checksum of the aligned variants exceeds it by exactly
`R * alpha * X0 = 0.5 * R`.  This holds of `init`, `R` outer iterations and
`check`, and of the four functions themselves, with their 32-bit outer counter,
whenever `R < 2 ^ 32`. -/
theorem C9_checksum_offset (W LEN R : Nat) (s : State ℚ) (hLEN : 1 ≤ LEN) (hW : 0 < W)
    (hdvd : W ∣ LEN) (hs : WellSized LEN s) :
    ∃ s1 s2 s3 s4 cO cA,
      variantN (v2_body LEN alpha) X0 Y0 LEN R s = .ok (s1, cO)
      ∧ variantN (v2_intr_body W LEN alpha) X0 Y0 LEN R s = .ok (s2, cO)
      ∧ variantN (v1_body LEN alpha) X0 Y0 LEN R s = .ok (s3, cA)
      ∧ variantN (v1_intr_body W LEN alpha) X0 Y0 LEN R s = .ok (s4, cA)
      ∧ cO = Y0 + ((LEN : ℚ) - 1) * (Y0 + R * alpha * X0)
      ∧ cO = 1 / 2 + ((LEN : ℚ) - 1) * (1 / 2 + 1 / 2 * R)
      ∧ cA - cO = R * alpha * X0
      ∧ cA - cO = 1 / 2 * R
      ∧ (R < U32 → ∀ fuel, R ≤ fuel →
          axpy_align_v2 X0 Y0 alpha LEN R fuel s = .ok (s1, cO)
          ∧ axpy_align_v2_intr W X0 Y0 alpha LEN R fuel s = .ok (s2, cO)
          ∧ axpy_align_v1 X0 Y0 alpha LEN R fuel s = .ok (s3, cA)
          ∧ axpy_align_v1_intr W X0 Y0 alpha LEN R fuel s = .ok (s4, cA)) := by
  obtain ⟨s1, h1⟩ := checksum_offset alpha X0 Y0 LEN R hLEN (v2_body LEN alpha)
    (v2_body_realises alpha LEN) s hs
  obtain ⟨s2, h2⟩ := checksum_offset alpha X0 Y0 LEN R hLEN (v2_intr_body W LEN alpha)
    (v2_intr_body_realises W alpha LEN hW hdvd) s hs
  obtain ⟨s3, h3⟩ := checksum_aligned alpha X0 Y0 LEN R (v1_body LEN alpha)
    (v1_body_realises alpha LEN) s hs
  obtain ⟨s4, h4⟩ := checksum_aligned alpha X0 Y0 LEN R (v1_intr_body W LEN alpha)
    (v1_intr_body_realises W alpha LEN hW hdvd) s hs
  refine ⟨s1, s2, s3, s4, _, _, h1, h2, h3, h4, rfl, ?_, ?_, ?_, ?_⟩
  · simp only [Y0, alpha, X0]
    ring
  · ring
  · simp only [Y0, alpha, X0]
    ring
  · intro hR fuel hfuel
    obtain ⟨e1, e2, e3, e4⟩ := four_variants_eq W LEN R fuel X0 Y0 alpha s hR hfuel
    exact ⟨e2.trans h1, e4.trans h2, e1.trans h3, e3.trans h4⟩

/-- Instance of C9 at `LEN = 1024`, `R = NTIMES = 15728640`, for a register of
`4` elements, from the zero-initialised static buffers: `axpy_align_v2` and
`axpy_align_v2_intr` print `8045199872`, `axpy_align_v1` and
`axpy_align_v1_intr` print `8053064192`. -/
theorem C9_checksum_offset_witness :
    (1 ≤ 1024 ∧ 0 < 4 ∧ 4 ∣ 1024 ∧ WellSized 1024 (freshState 1024 (0 : ℚ))
      ∧ 15728640 < U32 ∧ NTIMES 1024 = 15728640)
    ∧ ∃ s1 s2 s3 s4,
      axpy_align_v2 X0 Y0 alpha 1024 15728640 15728640 (freshState 1024 (0 : ℚ))
        = .ok (s1, 8045199872)
      ∧ axpy_align_v2_intr 4 X0 Y0 alpha 1024 15728640 15728640 (freshState 1024 (0 : ℚ))
        = .ok (s2, 8045199872)
      ∧ axpy_align_v1 X0 Y0 alpha 1024 15728640 15728640 (freshState 1024 (0 : ℚ))
        = .ok (s3, 8053064192)
      ∧ axpy_align_v1_intr 4 X0 Y0 alpha 1024 15728640 15728640 (freshState 1024 (0 : ℚ))
        = .ok (s4, 8053064192)
      ∧ variantN (v2_body 1024 alpha) X0 Y0 1024 15728640 (freshState 1024 (0 : ℚ))
        = .ok (s1, 8045199872)
      ∧ variantN (v2_intr_body 4 1024 alpha) X0 Y0 1024 15728640 (freshState 1024 (0 : ℚ))
        = .ok (s2, 8045199872)
      ∧ variantN (v1_body 1024 alpha) X0 Y0 1024 15728640 (freshState 1024 (0 : ℚ))
        = .ok (s3, 8053064192)
      ∧ variantN (v1_intr_body 4 1024 alpha) X0 Y0 1024 15728640 (freshState 1024 (0 : ℚ))
        = .ok (s4, 8053064192) := by
  have hU : 15728640 < U32 := by decide
  refine ⟨⟨by decide, by decide, by decide, wellSized_fresh 1024 0, hU, by decide⟩, ?_⟩
  obtain ⟨s1, s2, s3, s4, cO, cA, h1, h2, h3, h4, e1, _, e3, _, hreal⟩ :=
    C9_checksum_offset 4 1024 15728640 (freshState 1024 (0 : ℚ)) (by decide) (by decide)
      (by decide) (wellSized_fresh 1024 0)
  obtain ⟨g1, g2, g3, g4⟩ := hreal hU 15728640 (Nat.le_refl _)
  have hO : cO = 8045199872 := by
    rw [e1]
    simp only [Y0, alpha, X0]
    norm_num
  have hA : cA = 8053064192 := by
    have : cA = cO + (15728640 : ℕ) * alpha * X0 := by rw [← e3]; ring
    rw [this, hO]
    simp only [alpha, X0]
    norm_num
  rw [hO] at h1 h2 g1 g2
  rw [hA] at h3 h4 g3 g4
  exact ⟨s1, s2, s3, s4, g1, g2, g3, g4, h1, h2, h3, h4⟩

/-- C4: with a vector load, multiply, add and store of width `W` read as `W`
element-wise operations on consecutive indices, for every `LEN` that is a
multiple of `W`, every content of the `LEN + 1` slots of `x` and `y`, every
`alpha` and every number `n` of outer iterations, `axpy_align_v1_intr` leaves
the same `x` and `y` as `axpy_align_v1`, and `axpy_align_v2_intr` the same as
`axpy_align_v2`: `n` times the update `y[idx] = alpha * x[idx] + y[idx]` on
exactly the indices of the range (`[0, LEN)` aligned, `[1, LEN]` offset), and
nothing else changes.  The same holds for the whole variants, `init` and
`check` included. -/
theorem C4_intrinsics_refine_scalar {α : Type} [Mul α] [Add α] [Zero α] (W LEN n : Nat)
    (a : α) (s : State α) (hW : 0 < W) (hdvd : W ∣ LEN) (hs : WellSized LEN s) :
    (∃ s1 s2, iterN (v1_intr_body W LEN a) n s = .ok s1 ∧ iterN (v1_body LEN a) n s = .ok s2
        ∧ s1.x = s2.x ∧ s1.y = s2.y ∧ s1.z = s2.z ∧ s1.calls = s2.calls
        ∧ s2.x = s.x ∧ s2.z = s.z ∧ s2.y = (specKernel a 0 LEN s.x)^[n] s.y)
    ∧ (∃ s1 s2, iterN (v2_intr_body W LEN a) n s = .ok s1 ∧ iterN (v2_body LEN a) n s = .ok s2
        ∧ s1.x = s2.x ∧ s1.y = s2.y ∧ s1.z = s2.z ∧ s1.calls = s2.calls
        ∧ s2.x = s.x ∧ s2.z = s.z ∧ s2.y = (specKernel a 1 (LEN + 1) s.x)^[n] s.y)
    ∧ (∀ c d : α,
        (∃ r1 r2, variantN (v1_intr_body W LEN a) c d LEN n s = .ok r1
          ∧ variantN (v1_body LEN a) c d LEN n s = .ok r2
          ∧ r1.1.x = r2.1.x ∧ r1.1.y = r2.1.y ∧ r1.1.z = r2.1.z ∧ r1.2 = r2.2)
        ∧ (∃ r1 r2, variantN (v2_intr_body W LEN a) c d LEN n s = .ok r1
          ∧ variantN (v2_body LEN a) c d LEN n s = .ok r2
          ∧ r1.1.x = r2.1.x ∧ r1.1.y = r2.1.y ∧ r1.1.z = r2.1.z ∧ r1.2 = r2.2)) :=
  ⟨refines a 0 LEN n _ _ (v1_intr_body_realises W a LEN hW hdvd) (v1_body_realises a LEN) s
      (hs.fits_sized (by omega)),
    refines a 1 (LEN + 1) n _ _ (v2_intr_body_realises W a LEN hW hdvd)
      (v2_body_realises a LEN) s (hs.fits_sized (Nat.le_refl _)),
    fun c d =>
      ⟨refines_variant a c d 0 LEN LEN n _ _ (v1_intr_body_realises W a LEN hW hdvd)
          (v1_body_realises a LEN) (Nat.le_refl _) s (hs.fits_sized (by omega)),
        refines_variant a c d 1 (LEN + 1) LEN n _ _ (v2_intr_body_realises W a LEN hW hdvd)
          (v2_body_realises a LEN) (by omega) s (hs.fits_sized (Nat.le_refl _))⟩⟩

/-- Instance of C4 for a register of `4` elements, `LEN = 8`, three outer
iterations, on buffers holding `3` everywhere. -/
theorem C4_intrinsics_refine_scalar_witness :
    (0 < 4 ∧ 4 ∣ 8 ∧ WellSized 8 (freshState 8 (3 : ℚ)))
    ∧ ∃ s1 s2, iterN (v2_intr_body 4 8 alpha) 3 (freshState 8 (3 : ℚ)) = .ok s1
        ∧ iterN (v2_body 8 alpha) 3 (freshState 8 (3 : ℚ)) = .ok s2
        ∧ s1.x = s2.x ∧ s1.y = s2.y := by
  refine ⟨⟨by decide, by decide, wellSized_fresh 8 3⟩, ?_⟩
  obtain ⟨s1, s2, h1, h2, hx, hy, _⟩ :=
    (C4_intrinsics_refine_scalar 4 8 3 alpha (freshState 8 (3 : ℚ)) (by decide) (by decide)
      (wellSized_fresh 8 3)).2.1
  exact ⟨s1, s2, h1, h2, hx, hy⟩

/-- C5: with buffers of `LEN + 1` slots and a register of `W` elements, for
every `LEN` that is a positive multiple of `W`, each of the four variants, `init`
and `check` run without an out-of-range access (they return a result), and
every index of `x` and `y` they read or write is at most `LEN`: the largest
index touched by the aligned variants, by `init` and by `check` is `LEN - 1`,
and the largest touched by the offset variants, once the kernel has run, is
exactly `LEN`; the kernel does run, since `NTIMES` is positive for every `LEN`
that fits in an `int`.  When `LEN = W` the inner loop of an explicit variant is
a single step. -/
theorem C5_no_out_of_bounds {α : Type} [Mul α] [Add α] [Zero α] (W LEN n : Nat)
    (c d a : α) (s : State α) (hW : 0 < W) (hdvd : W ∣ LEN) (hLEN : 0 < LEN)
    (hs : WellSized LEN s) (hlog : s.log = []) :
    (∃ r, variantN (v1_body LEN a) c d LEN n s = .ok r
        ∧ (∀ i ∈ r.1.log, i ≤ LEN - 1) ∧ LEN - 1 ∈ r.1.log)
    ∧ (∃ r, variantN (v1_intr_body W LEN a) c d LEN n s = .ok r
        ∧ (∀ i ∈ r.1.log, i ≤ LEN - 1) ∧ LEN - 1 ∈ r.1.log)
    ∧ (∃ r, variantN (v2_body LEN a) c d LEN n s = .ok r
        ∧ (∀ i ∈ r.1.log, i ≤ LEN) ∧ (0 < n → LEN ∈ r.1.log))
    ∧ (∃ r, variantN (v2_intr_body W LEN a) c d LEN n s = .ok r
        ∧ (∀ i ∈ r.1.log, i ≤ LEN) ∧ (0 < n → LEN ∈ r.1.log))
    ∧ (∃ s1, init c d LEN s = .ok s1 ∧ (∀ i ∈ s1.log, i ≤ LEN - 1) ∧ LEN - 1 ∈ s1.log)
    ∧ (∃ r, check LEN s = .ok r ∧ (∀ i ∈ r.1.log, i ≤ LEN - 1) ∧ LEN - 1 ∈ r.1.log)
    ∧ (LEN = W → ∀ t : State α,
        forLoop (vecAt_v1 W (set1 W a)) LEN W LEN 0 t = vecAt_v1 W (set1 W a) 0 t
        ∧ forLoop (vecAt_v2 W (set1 W a)) LEN W LEN 0 t = vecAt_v2 W (set1 W a) 0 t)
    ∧ (LEN < 2 ^ 31 → 0 < NTIMES LEN) := by
  have hA : ∀ body : State α → Except Fault (State α), Realises a 0 LEN body →
      ∃ r, variantN body c d LEN n s = .ok r
        ∧ (∀ i ∈ r.1.log, i ≤ LEN - 1) ∧ LEN - 1 ∈ r.1.log := by
    intro body hb
    obtain ⟨r, hv, m1, m2, _⟩ :=
      access_bounds a c d 0 LEN LEN n body hb s (hs.fits_sized (by omega)) (Nat.le_refl _) hlog
    refine ⟨r, hv, ?_, m2 (LEN - 1) (by omega)⟩
    intro i hi
    rcases m1 i hi with h | h <;> omega
  have hO : ∀ body : State α → Except Fault (State α), Realises a 1 (LEN + 1) body →
      ∃ r, variantN body c d LEN n s = .ok r
        ∧ (∀ i ∈ r.1.log, i ≤ LEN) ∧ (0 < n → LEN ∈ r.1.log) := by
    intro body hb
    obtain ⟨r, hv, m1, _, m3⟩ :=
      access_bounds a c d 1 (LEN + 1) LEN n body hb s (hs.fits_sized (Nat.le_refl _)) (by omega) hlog
    refine ⟨r, hv, ?_, fun hn => m3 hn LEN (by omega) (by omega)⟩
    intro i hi
    rcases m1 i hi with h | h <;> omega
  refine ⟨hA _ (v1_body_realises a LEN), hA _ (v1_intr_body_realises W a LEN hW hdvd),
    hO _ (v2_body_realises a LEN), hO _ (v2_intr_body_realises W a LEN hW hdvd), ?_, ?_, ?_,
    ?_⟩
  · obtain ⟨s1, h1, i1⟩ := init_spec c d LEN s (hs.fits_sized (by omega))
    obtain ⟨lg, e, m⟩ := i1.log_eq
    rw [hlog, List.nil_append] at e
    refine ⟨s1, h1, ?_, ?_⟩
    · intro i hi
      rw [e] at hi
      have := (m i).mp hi
      omega
    · rw [e]
      exact (m (LEN - 1)).mpr (by omega)
  · obtain ⟨lg, h1, m⟩ := check_spec LEN s (by have := hs.2.1; omega)
    refine ⟨_, h1, ?_, ?_⟩
    · intro i hi
      have hi2 : i ∈ s.log ++ lg := hi
      rw [hlog, List.nil_append] at hi2
      have := (m i).mp hi2
      omega
    · show LEN - 1 ∈ s.log ++ lg
      rw [hlog, List.nil_append]
      exact (m (LEN - 1)).mpr (by omega)
  · intro hLW t
    subst hLW
    exact ⟨forLoop_single _ LEN hW t, forLoop_single _ LEN hW t⟩
  · intro h31
    rw [NTIMES_eq LEN hLEN h31]
    exact Nat.div_pos (by omega) hLEN

/-- Instance of C5 at the boundary `LEN = W = 4`, for one outer iteration from
the zero-initialised static buffers. -/
theorem C5_no_out_of_bounds_witness :
    (0 < 4 ∧ 4 ∣ 4 ∧ WellSized 4 (freshState 4 (0 : ℚ)) ∧ (freshState 4 (0 : ℚ)).log = [])
    ∧ (∃ r, variantN (v1_intr_body 4 4 alpha) X0 Y0 4 1 (freshState 4 (0 : ℚ)) = .ok r
        ∧ (∀ i ∈ r.1.log, i ≤ 3) ∧ 3 ∈ r.1.log)
    ∧ (∃ r, variantN (v2_intr_body 4 4 alpha) X0 Y0 4 1 (freshState 4 (0 : ℚ)) = .ok r
        ∧ (∀ i ∈ r.1.log, i ≤ 4) ∧ 4 ∈ r.1.log) := by
  have h := C5_no_out_of_bounds 4 4 1 X0 Y0 alpha (freshState 4 (0 : ℚ)) (by decide)
    (by decide) (by decide) (wellSized_fresh 4 0) rfl
  refine ⟨⟨by decide, by decide, wellSized_fresh 4 0, rfl⟩, h.2.1, ?_⟩
  obtain ⟨r, hv, hb, hm⟩ := h.2.2.2.1
  exact ⟨r, hv, hb, hm (by decide)⟩

/-- C6: `FLOP_COUNT = 3*4*5*512*1024*1024 = 32212254720` does not wrap in 64-bit
unsigned arithmetic, and for every `LEN = 2 ^ k` with `10 ≤ k ≤ 29` and every
`FLOP_IT` in `1..6` the truncating division of `NTIMES` is exact, so that
`NTIMES * LEN * FLOP_IT = FLOP_COUNT` (also when the product is taken in 64-bit
arithmetic); `LEN = 1024`, `FLOP_IT = 2` give `NTIMES = 15728640`. -/
theorem C6_total_work_constant :
    FLOP_COUNT = 32212254720 ∧ 3 * 4 * 5 * 512 * 1024 * 1024 = FLOP_COUNT
    ∧ (∀ k f : Nat, 10 ≤ k → k ≤ 29 → 1 ≤ f → f ≤ 6 →
        2 ^ k * f ∣ FLOP_COUNT
        ∧ NTIMES_of (2 ^ k) f * 2 ^ k * f = FLOP_COUNT
        ∧ ((NTIMES_of (2 ^ k) f % U64 * (2 ^ k % U64)) % U64 * (f % U64)) % U64 = FLOP_COUNT)
    ∧ NTIMES_of 1024 2 = 15728640 ∧ NTIMES 1024 = 15728640 := by
  refine ⟨by decide, by decide, ?_, by decide, by decide⟩
  intro k f hk1 hk2 hf1 hf2
  interval_cases k <;> interval_cases f <;> decide

/-- Instance of C6 at `LEN = 2 ^ 10 = 1024` and `FLOP_IT = 2`. -/
theorem C6_total_work_constant_witness :
    (10 ≤ 10 ∧ 10 ≤ 29 ∧ 1 ≤ 2 ∧ 2 ≤ 6)
    ∧ 2 ^ 10 * 2 ∣ FLOP_COUNT ∧ NTIMES_of (2 ^ 10) 2 * 2 ^ 10 * 2 = FLOP_COUNT :=
  have h := C6_total_work_constant.2.2.1 10 2 (by decide) (by decide) (by decide) (by decide)
  ⟨⟨by decide, by decide, by decide, by decide⟩, h.1, h.2.1⟩

/-- C7: with `dummy` leaving the buffers unchanged, for each of the four
variants and for any two contents `s` and `t` of the buffers before the call,
the final `y[0..LEN-1]` and the checksum computed by `check(y)` are the same; in
particular a second run of the same variant, started on what the first run
left behind, gives the same checksum.  For a repeat count below `2 ^ 32` the
functions with their 32-bit outer counter are these runs. -/
theorem C7_no_cross_run_leakage {α : Type} [Mul α] [Add α] [Zero α] (W LEN n : Nat)
    (c d a : α) (s t : State α) (hW : 0 < W) (hdvd : W ∣ LEN) (hs : WellSized LEN s)
    (ht : WellSized LEN t) :
    ((∃ r1 r2, variantN (v1_body LEN a) c d LEN n s = .ok r1
        ∧ variantN (v1_body LEN a) c d LEN n t = .ok r2
        ∧ r1.1.y.take LEN = r2.1.y.take LEN ∧ r1.2 = r2.2)
      ∧ (∃ r1 r2, variantN (v2_body LEN a) c d LEN n s = .ok r1
        ∧ variantN (v2_body LEN a) c d LEN n t = .ok r2
        ∧ r1.1.y.take LEN = r2.1.y.take LEN ∧ r1.2 = r2.2)
      ∧ (∃ r1 r2, variantN (v1_intr_body W LEN a) c d LEN n s = .ok r1
        ∧ variantN (v1_intr_body W LEN a) c d LEN n t = .ok r2
        ∧ r1.1.y.take LEN = r2.1.y.take LEN ∧ r1.2 = r2.2)
      ∧ (∃ r1 r2, variantN (v2_intr_body W LEN a) c d LEN n s = .ok r1
        ∧ variantN (v2_intr_body W LEN a) c d LEN n t = .ok r2
        ∧ r1.1.y.take LEN = r2.1.y.take LEN ∧ r1.2 = r2.2))
    ∧ ((∃ r1 r2, variantN (v1_body LEN a) c d LEN n s = .ok r1
        ∧ variantN (v1_body LEN a) c d LEN n r1.1 = .ok r2 ∧ r2.2 = r1.2)
      ∧ (∃ r1 r2, variantN (v2_body LEN a) c d LEN n s = .ok r1
        ∧ variantN (v2_body LEN a) c d LEN n r1.1 = .ok r2 ∧ r2.2 = r1.2)
      ∧ (∃ r1 r2, variantN (v1_intr_body W LEN a) c d LEN n s = .ok r1
        ∧ variantN (v1_intr_body W LEN a) c d LEN n r1.1 = .ok r2 ∧ r2.2 = r1.2)
      ∧ (∃ r1 r2, variantN (v2_intr_body W LEN a) c d LEN n s = .ok r1
        ∧ variantN (v2_intr_body W LEN a) c d LEN n r1.1 = .ok r2 ∧ r2.2 = r1.2))
    ∧ (∀ (u : State α) (fuel : Nat), n < U32 → n ≤ fuel →
        axpy_align_v1 c d a LEN n fuel u = variantN (v1_body LEN a) c d LEN n u
        ∧ axpy_align_v2 c d a LEN n fuel u = variantN (v2_body LEN a) c d LEN n u
        ∧ axpy_align_v1_intr W c d a LEN n fuel u
            = variantN (v1_intr_body W LEN a) c d LEN n u
        ∧ axpy_align_v2_intr W c d a LEN n fuel u
            = variantN (v2_intr_body W LEN a) c d LEN n u) := by
  have hA : ∀ body : State α → Except Fault (State α), Realises a 0 LEN body →
      (∃ r1 r2, variantN body c d LEN n s = .ok r1 ∧ variantN body c d LEN n t = .ok r2
        ∧ r1.1.y.take LEN = r2.1.y.take LEN ∧ r1.2 = r2.2) := by
    intro body hb
    obtain ⟨r1, r2, h1, h2, h3, h4, _⟩ :=
      no_leak a c d 0 LEN LEN n body hb (Nat.le_refl _) (by omega) s t hs ht
    exact ⟨r1, r2, h1, h2, h3, h4⟩
  have hO : ∀ body : State α → Except Fault (State α), Realises a 1 (LEN + 1) body →
      (∃ r1 r2, variantN body c d LEN n s = .ok r1 ∧ variantN body c d LEN n t = .ok r2
        ∧ r1.1.y.take LEN = r2.1.y.take LEN ∧ r1.2 = r2.2) := by
    intro body hb
    obtain ⟨r1, r2, h1, h2, h3, h4, _⟩ :=
      no_leak a c d 1 (LEN + 1) LEN n body hb (by omega) (Nat.le_refl _) s t hs ht
    exact ⟨r1, r2, h1, h2, h3, h4⟩
  have b1 := v1_body_realises a LEN
  have b2 := v2_body_realises a LEN
  have b3 := v1_intr_body_realises W a LEN hW hdvd
  have b4 := v2_intr_body_realises W a LEN hW hdvd
  refine ⟨⟨hA _ b1, hO _ b2, hA _ b3, hO _ b4⟩, ⟨?_, ?_, ?_, ?_⟩, ?_⟩
  · exact twice a c d 0 LEN LEN n _ b1 (Nat.le_refl _) (by omega) s hs
  · exact twice a c d 1 (LEN + 1) LEN n _ b2 (by omega) (Nat.le_refl _) s hs
  · exact twice a c d 0 LEN LEN n _ b3 (Nat.le_refl _) (by omega) s hs
  · exact twice a c d 1 (LEN + 1) LEN n _ b4 (by omega) (Nat.le_refl _) s hs
  · intro u fuel hn hfuel
    exact four_variants_eq W LEN n fuel c d a u hn hfuel

/-- Instance of C7 for a register of `4` elements and `LEN = 8`: a run from
buffers holding `7` everywhere and a run from the zero-initialised buffers give
the same checksum. -/
theorem C7_no_cross_run_leakage_witness :
    (0 < 4 ∧ 4 ∣ 8 ∧ WellSized 8 (freshState 8 (7 : ℚ)) ∧ WellSized 8 (freshState 8 (0 : ℚ)))
    ∧ ∃ r1 r2, variantN (v2_intr_body 4 8 alpha) X0 Y0 8 5 (freshState 8 (7 : ℚ)) = .ok r1
        ∧ variantN (v2_intr_body 4 8 alpha) X0 Y0 8 5 (freshState 8 (0 : ℚ)) = .ok r2
        ∧ r1.1.y.take 8 = r2.1.y.take 8 ∧ r1.2 = r2.2 :=
  ⟨⟨by decide, by decide, wellSized_fresh 8 7, wellSized_fresh 8 0⟩,
    (C7_no_cross_run_leakage 4 8 5 X0 Y0 alpha (freshState 8 (7 : ℚ)) (freshState 8 (0 : ℚ))
      (by decide) (by decide) (wellSized_fresh 8 7) (wellSized_fresh 8 0)).1.2.2.2⟩

/-- C8: with the calls of `dummy` recorded, a run of each of the four variants
with `n` outer iterations calls `dummy(x, y, z, alpha)` exactly `n` times, the
inner loops call it never, and the `k`-th call receives the `y` left by `k`
complete inner loops: every index of the active range has been updated exactly
`k` times.  For a repeat count below `2 ^ 32` the functions with their 32-bit
outer counter are these runs. -/
theorem C8_barrier_calls {α : Type} [Mul α] [Add α] [Zero α] (W LEN n : Nat)
    (c d a : α) (s : State α) (hW : 0 < W) (hdvd : W ∣ LEN) (hs : WellSized LEN s)
    (hc : s.calls = []) :
    ((∃ r, variantN (v1_body LEN a) c d LEN n s = .ok r ∧ r.1.calls.length = n
        ∧ ∀ k, 1 ≤ k → k ≤ n →
          ∃ yk, r.1.calls[k - 1]? = some (specFill c 0 LEN s.x, yk, s.z, a)
            ∧ yk = (specKernel a 0 LEN (specFill c 0 LEN s.x))^[k] (specFill d 0 LEN s.y)
            ∧ ∀ j, j < LEN → yk[j]? = some (accum a c d k))
      ∧ (∃ r, variantN (v1_intr_body W LEN a) c d LEN n s = .ok r ∧ r.1.calls.length = n
        ∧ ∀ k, 1 ≤ k → k ≤ n →
          ∃ yk, r.1.calls[k - 1]? = some (specFill c 0 LEN s.x, yk, s.z, a)
            ∧ yk = (specKernel a 0 LEN (specFill c 0 LEN s.x))^[k] (specFill d 0 LEN s.y)
            ∧ ∀ j, j < LEN → yk[j]? = some (accum a c d k))
      ∧ (∃ r, variantN (v2_body LEN a) c d LEN n s = .ok r ∧ r.1.calls.length = n
        ∧ ∀ k, 1 ≤ k → k ≤ n →
          ∃ yk, r.1.calls[k - 1]? = some (specFill c 0 LEN s.x, yk, s.z, a)
            ∧ yk = (specKernel a 1 (LEN + 1) (specFill c 0 LEN s.x))^[k] (specFill d 0 LEN s.y)
            ∧ ∀ j, 1 ≤ j → j < LEN → yk[j]? = some (accum a c d k))
      ∧ (∃ r, variantN (v2_intr_body W LEN a) c d LEN n s = .ok r ∧ r.1.calls.length = n
        ∧ ∀ k, 1 ≤ k → k ≤ n →
          ∃ yk, r.1.calls[k - 1]? = some (specFill c 0 LEN s.x, yk, s.z, a)
            ∧ yk = (specKernel a 1 (LEN + 1) (specFill c 0 LEN s.x))^[k] (specFill d 0 LEN s.y)
            ∧ ∀ j, 1 ≤ j → j < LEN → yk[j]? = some (accum a c d k)))
    ∧ ((∃ s1, forLoop (fun i => axpyAt a i) LEN 1 LEN 0 s = .ok s1 ∧ s1.calls = s.calls)
      ∧ (∃ s1, forLoop (fun i => axpyAt a (i + 1)) LEN 1 LEN 0 s = .ok s1 ∧ s1.calls = s.calls)
      ∧ (∃ s1, forLoop (vecAt_v1 W (set1 W a)) LEN W LEN 0 s = .ok s1 ∧ s1.calls = s.calls)
      ∧ (∃ s1, forLoop (vecAt_v2 W (set1 W a)) LEN W LEN 0 s = .ok s1 ∧ s1.calls = s.calls))
    ∧ (∀ (u : State α) (fuel : Nat), n < U32 → n ≤ fuel →
        axpy_align_v1 c d a LEN n fuel u = variantN (v1_body LEN a) c d LEN n u
        ∧ axpy_align_v2 c d a LEN n fuel u = variantN (v2_body LEN a) c d LEN n u
        ∧ axpy_align_v1_intr W c d a LEN n fuel u
            = variantN (v1_intr_body W LEN a) c d LEN n u
        ∧ axpy_align_v2_intr W c d a LEN n fuel u
            = variantN (v2_intr_body W LEN a) c d LEN n u) := by
  have hA : ∀ body : State α → Except Fault (State α), Realises a 0 LEN body →
      ∃ r, variantN body c d LEN n s = .ok r ∧ r.1.calls.length = n
        ∧ ∀ k, 1 ≤ k → k ≤ n →
          ∃ yk, r.1.calls[k - 1]? = some (specFill c 0 LEN s.x, yk, s.z, a)
            ∧ yk = (specKernel a 0 LEN (specFill c 0 LEN s.x))^[k] (specFill d 0 LEN s.y)
            ∧ ∀ j, j < LEN → yk[j]? = some (accum a c d k) := by
    intro body hb
    obtain ⟨r, hv, hl, hk⟩ :=
      calls_spec a c d 0 LEN LEN n body hb s (hs.fits_sized (by omega)) (Nat.le_refl _) hc
    refine ⟨r, hv, hl, ?_⟩
    intro k h1 h2
    obtain ⟨yk, e1, e2, e3⟩ := hk k h1 h2
    refine ⟨yk, e1, e2, ?_⟩
    intro j hj
    rw [e3 j hj, if_pos ⟨Nat.zero_le j, hj⟩]
  have hO : ∀ body : State α → Except Fault (State α), Realises a 1 (LEN + 1) body →
      ∃ r, variantN body c d LEN n s = .ok r ∧ r.1.calls.length = n
        ∧ ∀ k, 1 ≤ k → k ≤ n →
          ∃ yk, r.1.calls[k - 1]? = some (specFill c 0 LEN s.x, yk, s.z, a)
            ∧ yk = (specKernel a 1 (LEN + 1) (specFill c 0 LEN s.x))^[k] (specFill d 0 LEN s.y)
            ∧ ∀ j, 1 ≤ j → j < LEN → yk[j]? = some (accum a c d k) := by
    intro body hb
    obtain ⟨r, hv, hl, hk⟩ :=
      calls_spec a c d 1 (LEN + 1) LEN n body hb s (hs.fits_sized (Nat.le_refl _)) (by omega) hc
    refine ⟨r, hv, hl, ?_⟩
    intro k h1 h2
    obtain ⟨yk, e1, e2, e3⟩ := hk k h1 h2
    refine ⟨yk, e1, e2, ?_⟩
    intro j hj1 hj
    rw [e3 j hj, if_pos ⟨hj1, by omega⟩]
  refine ⟨⟨hA _ (v1_body_realises a LEN), hA _ (v1_intr_body_realises W a LEN hW hdvd),
    hO _ (v2_body_realises a LEN), hO _ (v2_intr_body_realises W a LEN hW hdvd)⟩,
    ⟨?_, ?_, ?_, ?_⟩, ?_⟩
  · obtain ⟨s1, h1, u⟩ := scalar_loop a LEN 0 s (hs.fits_sized (by omega))
    exact ⟨s1, h1, u.calls_eq⟩
  · obtain ⟨s1, h1, u⟩ := scalar_loop a LEN 1 s (hs.fits_sized (Nat.le_refl _))
    exact ⟨s1, h1, u.calls_eq⟩
  · obtain ⟨s1, h1, u⟩ := vec_loop_v1 W a LEN s hW hdvd (hs.fits_sized (by omega))
    exact ⟨s1, h1, u.calls_eq⟩
  · obtain ⟨s1, h1, u⟩ := vec_loop_v2 W a LEN s hW hdvd (hs.fits_sized (Nat.le_refl _))
    exact ⟨s1, h1, u.calls_eq⟩
  · intro u fuel hn hfuel
    exact four_variants_eq W LEN n fuel c d a u hn hfuel

/-- Instance of C8 at `LEN = 1024`, `n = NTIMES = 15728640`, for a register of
`4` elements, from the zero-initialised static buffers: `axpy_align_v2_intr`
calls `dummy` `15728640` times. -/
theorem C8_barrier_calls_witness :
    (0 < 4 ∧ 4 ∣ 1024 ∧ WellSized 1024 (freshState 1024 (0 : ℚ))
      ∧ (freshState 1024 (0 : ℚ)).calls = [])
    ∧ ∃ r, axpy_align_v2_intr 4 X0 Y0 alpha 1024 15728640 15728640 (freshState 1024 (0 : ℚ))
        = .ok r ∧ r.1.calls.length = 15728640 := by
  have h := C8_barrier_calls 4 1024 15728640 X0 Y0 alpha (freshState 1024 (0 : ℚ)) (by decide)
    (by decide) (wellSized_fresh 1024 0) rfl
  refine ⟨⟨by decide, by decide, wellSized_fresh 1024 0, rfl⟩, ?_⟩
  obtain ⟨r, hv, hl, _⟩ := h.1.2.2.2
  refine ⟨r, ?_, hl⟩
  rw [(h.2.2 (freshState 1024 (0 : ℚ)) 15728640 (by decide) (Nat.le_refl _)).2.2.2]
  exact hv

/-- C10: the outer counter `nl` is a 32-bit unsigned integer compared with the
64-bit `NTIMES`, so the loop `for (nl = 0; nl < NTIMES; nl++)` ends, after
exactly `NTIMES` iterations, if and only if `NTIMES ≤ 2 ^ 32 - 1`.  With the
constants of the file, `NTIMES = 16106127360 / LEN`, and this holds exactly
when `LEN ≥ 4` (`LEN = 4` gives `4026531840`, `LEN = 3` gives `5368709120`):
every variant ends for `LEN ≥ 4`, and for `LEN` in `1..3` the outer loop never
ends. -/
theorem C10_outer_loop_termination {α : Type} [Mul α] [Add α] [Zero α] (c d a : α) :
    (∀ (σ : Type) (f : σ → σ) (ntimes : Nat) (s : σ),
      (ntimes ≤ 2 ^ 32 - 1 → ∀ fuel, ntimes ≤ fuel →
        outerLoop (fun t => .ok (f t)) ntimes fuel 0 s = .ok (f^[ntimes] s))
      ∧ (¬ ntimes ≤ 2 ^ 32 - 1 → ∀ fuel,
        outerLoop (fun t => .ok (f t)) ntimes fuel 0 s = .error .outOfFuel))
    ∧ (∀ LEN, 1 ≤ LEN → LEN < 2 ^ 31 →
        NTIMES LEN = 16106127360 / LEN ∧ (NTIMES LEN ≤ 2 ^ 32 - 1 ↔ 4 ≤ LEN))
    ∧ NTIMES 4 = 4026531840 ∧ NTIMES 3 = 5368709120
    ∧ (∀ (W LEN fuel : Nat) (s : State α), 0 < W → 4 ≤ LEN → LEN < 2 ^ 31 →
        NTIMES LEN ≤ fuel →
        (axpy_align_v1 c d a LEN (NTIMES LEN) fuel s ≠ .error .outOfFuel
          ∧ axpy_align_v2 c d a LEN (NTIMES LEN) fuel s ≠ .error .outOfFuel
          ∧ axpy_align_v1_intr W c d a LEN (NTIMES LEN) fuel s ≠ .error .outOfFuel
          ∧ axpy_align_v2_intr W c d a LEN (NTIMES LEN) fuel s ≠ .error .outOfFuel)
        ∧ (axpy_align_v1 c d a LEN (NTIMES LEN) fuel s
              = variantN (v1_body LEN a) c d LEN (NTIMES LEN) s
          ∧ axpy_align_v2 c d a LEN (NTIMES LEN) fuel s
              = variantN (v2_body LEN a) c d LEN (NTIMES LEN) s
          ∧ axpy_align_v1_intr W c d a LEN (NTIMES LEN) fuel s
              = variantN (v1_intr_body W LEN a) c d LEN (NTIMES LEN) s
          ∧ axpy_align_v2_intr W c d a LEN (NTIMES LEN) fuel s
              = variantN (v2_intr_body W LEN a) c d LEN (NTIMES LEN) s)
        ∧ (WellSized LEN s → W ∣ LEN →
            (∃ r, axpy_align_v1 c d a LEN (NTIMES LEN) fuel s = .ok r)
            ∧ (∃ r, axpy_align_v2 c d a LEN (NTIMES LEN) fuel s = .ok r)
            ∧ (∃ r, axpy_align_v1_intr W c d a LEN (NTIMES LEN) fuel s = .ok r)
            ∧ (∃ r, axpy_align_v2_intr W c d a LEN (NTIMES LEN) fuel s = .ok r)))
    ∧ (∀ (W LEN fuel : Nat) (s : State α), 1 ≤ LEN → LEN ≤ 3 → WellSized LEN s →
        axpy_align_v1 c d a LEN (NTIMES LEN) fuel s = .error .outOfFuel
        ∧ axpy_align_v2 c d a LEN (NTIMES LEN) fuel s = .error .outOfFuel
        ∧ (0 < W → W ∣ LEN →
            axpy_align_v1_intr W c d a LEN (NTIMES LEN) fuel s = .error .outOfFuel
            ∧ axpy_align_v2_intr W c d a LEN (NTIMES LEN) fuel s = .error .outOfFuel)) := by
  have hU : U32 = 2 ^ 32 := rfl
  refine ⟨?_, ?_, by decide, by decide, ?_, ?_⟩
  · intro σ f ntimes s
    have hiter : ∀ (m : Nat) (t : σ),
        iterN (fun t => (.ok (f t) : Except Fault σ)) m t = .ok (f^[m] t) := by
      intro m
      induction m with
      | zero => intro t; rfl
      | succ m ih => intro t; simp [iterN, ih]
    constructor
    · intro hn fuel hfuel
      rw [outerLoop_eq_iterN _ ntimes (by rw [hU]; omega) fuel 0 s (Nat.zero_le _) (by omega)]
      exact hiter ntimes s
    · intro hn fuel
      exact outerLoop_diverges _ ntimes (by rw [hU]; omega) (fun _ => True)
        (fun t _ => ⟨f t, rfl, trivial⟩) fuel 0 s (by rw [hU]; norm_num) trivial
  · intro LEN h1 h2
    exact ⟨NTIMES_eq LEN h1 h2, NTIMES_small_iff LEN h1 h2⟩
  · intro W LEN fuel s hW h4 h31 hfuel
    have hn : NTIMES LEN < U32 := by
      have := (NTIMES_small_iff LEN (by omega) h31).mpr h4
      rw [hU]
      omega
    refine ⟨⟨?_, ?_, ?_, ?_⟩, four_variants_eq W LEN (NTIMES LEN) fuel c d a s hn hfuel, ?_⟩
    · exact variant_terminates _ (v1_body_terminates LEN a) c d LEN _ fuel s hn hfuel
    · exact variant_terminates _ (v2_body_terminates LEN a) c d LEN _ fuel s hn hfuel
    · exact variant_terminates _ (v1_intr_body_terminates W LEN hW a) c d LEN _ fuel s hn hfuel
    · exact variant_terminates _ (v2_intr_body_terminates W LEN hW a) c d LEN _ fuel s hn hfuel
    · intro hs hdvd
      exact ⟨variant_ok a c d 0 LEN LEN _ fuel _ (v1_body_realises a LEN) s
          (hs.fits_sized (by omega)) (Nat.le_refl _) hn hfuel,
        variant_ok a c d 1 (LEN + 1) LEN _ fuel _ (v2_body_realises a LEN) s
          (hs.fits_sized (Nat.le_refl _)) (by omega) hn hfuel,
        variant_ok a c d 0 LEN LEN _ fuel _ (v1_intr_body_realises W a LEN hW hdvd) s
          (hs.fits_sized (by omega)) (Nat.le_refl _) hn hfuel,
        variant_ok a c d 1 (LEN + 1) LEN _ fuel _ (v2_intr_body_realises W a LEN hW hdvd) s
          (hs.fits_sized (Nat.le_refl _)) (by omega) hn hfuel⟩
  · intro W LEN fuel s h1 h3 hs
    have hn : U32 ≤ NTIMES LEN := by
      have h31 : LEN < 2 ^ 31 := by omega
      have := (NTIMES_small_iff LEN h1 h31).not.mpr (by omega)
      rw [hU]
      omega
    refine ⟨?_, ?_, ?_⟩
    · exact variant_diverges a c d 0 LEN LEN _ fuel _ (v1_body_realises a LEN) s
        (hs.fits_sized (by omega)) (Nat.le_refl _) hn
    · exact variant_diverges a c d 1 (LEN + 1) LEN _ fuel _ (v2_body_realises a LEN) s
        (hs.fits_sized (Nat.le_refl _)) (by omega) hn
    · intro hW hdvd
      exact ⟨variant_diverges a c d 0 LEN LEN _ fuel _ (v1_intr_body_realises W a LEN hW hdvd) s
          (hs.fits_sized (by omega)) (Nat.le_refl _) hn,
        variant_diverges a c d 1 (LEN + 1) LEN _ fuel _
          (v2_intr_body_realises W a LEN hW hdvd) s (hs.fits_sized (Nat.le_refl _)) (by omega) hn⟩

/-- Instances of C10 from the zero-initialised static buffers: with `LEN = 4`
and a register of `4` elements `axpy_align_v1_intr` returns, and with `LEN = 3`
`axpy_align_v1` runs out of every amount of fuel. -/
theorem C10_outer_loop_termination_witness :
    (0 < 4 ∧ 4 ≤ 4 ∧ 4 < 2 ^ 31 ∧ NTIMES 4 ≤ 4026531840
      ∧ WellSized 4 (freshState 4 (0 : ℚ)) ∧ 4 ∣ 4)
    ∧ (1 ≤ 3 ∧ 3 ≤ 3 ∧ WellSized 3 (freshState 3 (0 : ℚ)))
    ∧ (∃ r, axpy_align_v1_intr 4 X0 Y0 alpha 4 (NTIMES 4) 4026531840 (freshState 4 (0 : ℚ))
        = .ok r)
    ∧ axpy_align_v1 X0 Y0 alpha 3 (NTIMES 3) 1000 (freshState 3 (0 : ℚ))
        = .error .outOfFuel := by
  have h := C10_outer_loop_termination X0 Y0 alpha
  refine ⟨⟨by decide, by decide, by decide, by decide, wellSized_fresh 4 0, by decide⟩,
    ⟨by decide, by decide, wellSized_fresh 3 0⟩, ?_, ?_⟩
  · exact ((h.2.2.2.2.1 4 4 4026531840 (freshState 4 (0 : ℚ)) (by decide) (by decide)
      (by decide) (by decide)).2.2 (wellSized_fresh 4 0) (by decide)).2.2.1
  · exact (h.2.2.2.2.2 1 3 1000 (freshState 3 (0 : ℚ)) (by decide) (by decide)
      (wellSized_fresh 3 0)).1

end AxpyAlign
